import Mathlib

/-!
# Verification of the STAATS survey-analysis core

Shallow embedding of the STAATS Python sources (`core.py`, `formula_parser.py`,
`engines.py`, `recode_engine.py`, `tab_engine.py`).  DataFrames are modelled as
named columns of nullable cells, pandas boolean Series as `List Bool`, numeric
values (Python int and float alike; Python compares them interchangeably) as
`ℚ`, and raising Python code as `Except String`.  Definitions follow the source
line by line; deviations forced by the embedding are noted where they occur.
-/

set_option autoImplicit false

namespace Staats

/-- A dataset cell: nullable, holding either a number (Python int/float merged
into `ℚ`) or a text value (MultiChoice cells hold text like `"1,2"`). -/
inductive Cell where
  | null
  | num (q : ℚ)
  | str (s : String)
deriving DecidableEq, Repr

/-- A parsed condition value, as produced by
`FormulaParser.parse_variable_condition`: a scalar number, a fallback string,
or (for the C/NC/CO/NCO operators) a list of integer codes. -/
inductive PVal where
  | num (q : ℚ)
  | str (s : String)
  | intList (l : List Int)
deriving DecidableEq, Repr

/-- A pandas DataFrame: a fixed row count and named columns.  Column update
follows `df[name] = values`: replace in place if the name exists, else append. -/
structure DataFrame where
  nrows : Nat
  cols : List (String × List Cell)
deriving DecidableEq, Repr

namespace DataFrame

def getCol? (df : DataFrame) (name : String) : Option (List Cell) :=
  (df.cols.find? (fun p => p.1 == name)).map (·.2)

def columns (df : DataFrame) : List String := df.cols.map (·.1)

def hasCol (df : DataFrame) (name : String) : Bool :=
  df.cols.any (fun p => p.1 == name)

/-- `df[name] = vals` -/
def setCol (df : DataFrame) (name : String) (vals : List Cell) : DataFrame :=
  if df.hasCol name then
    ⟨df.nrows, df.cols.map (fun p => if p.1 == name then (name, vals) else p)⟩
  else
    ⟨df.nrows, df.cols ++ [(name, vals)]⟩

/-- Well-formedness: every column has exactly `nrows` cells. -/
def WF (df : DataFrame) : Prop := ∀ p ∈ df.cols, p.2.length = df.nrows

instance : DecidablePred WF := fun df =>
  inferInstanceAs (Decidable (∀ p ∈ df.cols, p.2.length = df.nrows))

end DataFrame

/-- `QuestionType` from `core.py`. -/
inductive QuestionType where
  | QUALI_UNIQUE
  | QUALI_MULTI
  | NUMERIC
  | OPEN
deriving DecidableEq, Repr

/-- `Question` from `core.py` (the fields the engines use). -/
structure Question where
  name : String
  qtype : QuestionType
  title : String
  codes : List (Int × String) := []
deriving DecidableEq, Repr

/-- `DataMap` from `core.py`: an insertion-ordered dict name → Question. -/
structure DataMap where
  questions : List (String × Question)
deriving DecidableEq, Repr

namespace DataMap

/-- `self.questions[question.name] = question` (dict assignment: replace the
existing entry in place, else append). -/
def add_question (dm : DataMap) (q : Question) : DataMap :=
  if dm.questions.any (fun p => p.1 == q.name) then
    ⟨dm.questions.map (fun p => if p.1 == q.name then (q.name, q) else p)⟩
  else
    ⟨dm.questions ++ [(q.name, q)]⟩

def get_question (dm : DataMap) (name : String) : Option Question :=
  (dm.questions.find? (fun p => p.1 == name)).map (·.2)

end DataMap

/-! ## String helpers mirroring the Python primitives

The Lean core string functions (`trim`, `splitOn`, `toLower`, `toInt?`) are
defined by well-founded recursion over byte positions and do not reduce in
the kernel, so the Python primitives the sources use are embedded directly
as structurally recursive functions over `List Char`. -/

/-- Python regex `\s`, and the whitespace `str.strip`/`str.lower` handle. -/
def isWs (c : Char) : Bool :=
  c == ' ' || c == '\t' || c == '\n' || c == '\r' || c == '\x0b' || c == '\x0c'

/-- Does `pat` occur as a contiguous substring of `hay`? (`pat in hay`). -/
def listHasSub (pat : List Char) : List Char → Bool
  | [] => pat.isEmpty
  | c :: cs => pat.isPrefixOf (c :: cs) || listHasSub pat cs

def strHasSub (hay pat : String) : Bool := listHasSub pat.data hay.data

/-- Python `str.strip()`. -/
def trimList (cs : List Char) : List Char :=
  ((cs.dropWhile isWs).reverse.dropWhile isWs).reverse

def pyTrim (s : String) : String := String.mk (trimList s.data)

/-- Python `str.lower()` (ASCII, all the formulas contain). -/
def pyLower (s : String) : String := String.mk (s.data.map Char.toLower)

/-- Python `s.split(sep)` for a one-character separator. -/
def splitCharAux (c : Char) : List Char → List Char → List (List Char)
  | [], acc => [acc.reverse]
  | x :: xs, acc =>
    if x == c then acc.reverse :: splitCharAux c xs []
    else splitCharAux c xs (x :: acc)

def splitChar (c : Char) (s : String) : List String :=
  (splitCharAux c s.data []).map String.mk

/-- Python `sep.join(parts)`. -/
def joinWith (sep : String) : List String → String
  | [] => ""
  | [p] => p
  | p :: ps => p ++ sep ++ joinWith sep ps

/-- The numeric value of a decimal digit character. -/
def digitVal (c : Char) : Nat := c.toNat - 48

/-- All-decimal-digit parse (empty input fails). -/
def digitsToNat? (cs : List Char) : Option Nat :=
  if cs.isEmpty then none
  else cs.foldl (fun acc c =>
    acc.bind (fun n => if c.isDigit then some (n * 10 + digitVal c) else none))
    (some 0)

def pyIntOfChars : List Char → Option Int
  | '-' :: ds => (digitsToNat? ds).map (fun n => -(n : Int))
  | '+' :: ds => (digitsToNat? ds).map (fun n => (n : Int))
  | ds => (digitsToNat? ds).map (fun n => (n : Int))

/-- Python `int(s)`: strip, optional sign, decimal digits. -/
def pyInt? (s : String) : Option Int := pyIntOfChars (trimList s.data)

/-- Python `float(s)` restricted to plain decimal literals (the only form the
formula grammar can produce: digits, dots).  `"1."` and `".5"` parse, `"."`
and `""` do not. -/
def pyFloat? (s : String) : Option ℚ :=
  let t := trimList s.data
  let (neg, u) : Bool × List Char :=
    match t with
    | '-' :: r => (true, r)
    | '+' :: r => (false, r)
    | r => (false, r)
  let sgn : ℚ → ℚ := fun q => if neg then -q else q
  match splitCharAux '.' u [] with
  | [a] => (digitsToNat? a).map (fun n => sgn (n : ℚ))
  | [a, b] =>
    if a.isEmpty && b.isEmpty then none
    else
      let ia : Option Nat := if a.isEmpty then some 0 else digitsToNat? a
      let fb : Option (Nat × Nat) :=
        if b.isEmpty then some (0, 1)
        else (digitsToNat? b).map (fun n => (n, 10 ^ b.length))
      match ia, fb with
      | some x, some (n, d) => some (sgn ((x : ℚ) + (n : ℚ) / (d : ℚ)))
      | _, _ => none
  | _ => none

/-- Python `int(float)` truncates toward zero. -/
def truncRat (q : ℚ) : Int := q.num / (q.den : Int)

/-- Decimal rendering of a natural number (fuel-driven; `n` needs at most
`n + 1` digit steps). -/
def natToChars : Nat → Nat → List Char
  | 0, _ => []
  | f + 1, n =>
    if n < 10 then [Nat.digitChar n]
    else natToChars f (n / 10) ++ [Nat.digitChar (n % 10)]

/-- Python `str(int)`. -/
def intToString : Int → String
  | .ofNat n => String.mk (natToChars (n + 1) n)
  | .negSucc n => "-" ++ String.mk (natToChars (n + 2) (n + 1))

/-! ## `FormulaParser.VAR_CONDITION_PATTERN`

The regex `\["([^"]+)"(C|NC|CO|NCO|=|!=|>=|<=|>|<)([\d,\s\.]+)\]` is embedded
as a direct scanner.  Backtracking over the operator alternation is resolved
statically: a candidate operator is viable only when followed by at least one
value-class character, and (because no operator character is a value-class
character) at most one candidate in the regex's order can be viable at a given
position, so first-viable-candidate reproduces the regex's choice. -/

/-- The value character class `[\d,\s\.]`. -/
def isValChar (c : Char) : Bool := c.isDigit || c == ',' || c == '.' || isWs c

/-- Operator alternatives in the regex's order. -/
def opCandidates : List String :=
  ["C", "NC", "CO", "NCO", "=", "!=", ">=", "<=", ">", "<"]

/-- Match one operator alternative at the head of `cs`, requiring a following
value-class character (otherwise the regex would backtrack past it). -/
def tryOp (cs : List Char) : Option (String × List Char) :=
  opCandidates.findSome? (fun op =>
    let p := op.data
    if p.isPrefixOf cs then
      let rest := cs.drop p.length
      match rest with
      | c :: _ => if isValChar c then some (op, rest) else none
      | [] => none
    else none)

/-- Attempt a full pattern match anchored at the head of `cs`; on success
return `(variable, operator, value-string)` and the remaining input. -/
def matchCond (cs : List Char) : Option ((String × String × String) × List Char) :=
  match cs with
  | '[' :: '"' :: rest =>
    let nm := rest.takeWhile (fun c => !(c == '"'))
    if nm.isEmpty then none
    else
      match rest.drop nm.length with
      | '"' :: rest3 =>
        match tryOp rest3 with
        | some (op, rest4) =>
          let vs := rest4.takeWhile isValChar
          match rest4.drop vs.length with
          | ']' :: rest6 => some ((String.mk nm, op, String.mk vs), rest6)
          | _ => none
        | none => none
      | _ => none
  | _ => none

/-- `finditer`: scan left to right, resuming after each match (fuel-driven;
every step consumes at least one character, so `cs.length` fuel is exact). -/
def findCondsAux : Nat → List Char → List (String × String × String)
  | 0, _ => []
  | Nat.succ f, cs =>
    match matchCond cs with
    | some (m, rest) => m :: findCondsAux f rest
    | none =>
      match cs with
      | [] => []
      | _ :: t => findCondsAux f t

def findConds (s : String) : List (String × String × String) :=
  findCondsAux s.data.length s.data

/-- Value parsing inside `parse_variable_condition`: C/NC/CO/NCO split the
value string on commas and convert each part with `int` (which raises on empty
or non-integer parts); other operators try `int`, then `float`, then fall back
to the raw string.  (The quote-stripping branch in the source is dead code:
the regex value class cannot capture a quote.) -/
def parseCondValue (op : String) (vstr : String) : Except String PVal :=
  if op == "C" || op == "NC" || op == "CO" || op == "NCO" then
    match (splitChar ',' vstr).mapM (fun p => pyInt? p) with
    | some l => .ok (.intList l)
    | none => .error ("invalid literal for int() with base 10 in: " ++ vstr)
  else
    match pyInt? vstr with
    | some n => .ok (.num (n : ℚ))
    | none =>
      match pyFloat? vstr with
      | some q => .ok (.num q)
      | none => .ok (.str (pyTrim vstr))

/-- `FormulaParser.parse_variable_condition`. -/
def parse_variable_condition (formula : String) :
    Except String (List (String × String × PVal)) :=
  (findConds formula).mapM (fun m =>
    (parseCondValue m.2.1 m.2.2).map (fun pv => (m.1, m.2.1, pv)))

/-! ## `FormulaParser.evaluate_condition` -/

/-- The set semantics of the C/NC/CO/NCO operators on a parsed code list. -/
def containsOp (op : String) (vals codes : List Int) : Bool :=
  if op == "C" then vals.any (fun v => codes.contains v)
  else if op == "NC" then !(vals.any (fun v => codes.contains v))
  else if op == "CO" then decide (codes.toFinset = vals.toFinset)
  else if op == "NCO" then decide (codes.toFinset ≠ vals.toFinset)
  else false

/-- `contains_check` from `evaluate_condition`: null cells are false; string
cells are split on commas, blanks dropped, parts converted with `int` (which
raises on non-integers); numeric cells are truncated to a one-element list. -/
def containsCheck (op : String) (vals : List Int) (cell : Cell) : Except String Bool :=
  match cell with
  | .null => .ok false
  | .str s =>
    let parts := ((splitChar ',' s).map pyTrim).filter (fun p => p ≠ "")
    match parts.mapM pyInt? with
    | some codes => .ok (containsOp op vals codes)
    | none => .error ("invalid literal for int() with base 10 in cell: " ++ s)
  | .num q => .ok (containsOp op vals [truncRat q])

/-- pandas `col == value` per cell: null compares false, numbers compare as
numbers, strings as strings, mixed types unequal. -/
def cellEq : Cell → PVal → Bool
  | .null, _ => false
  | .num q, .num v => decide (q = v)
  | .str s, .str v => s == v
  | _, _ => false

/-- pandas ordered comparison per cell: null compares false; numbers and
strings compare within their type (strings lexicographically, as in Python).
A mixed-type ordered comparison raises in pandas; it is modelled as false,
which no claim exercises. -/
def cellOrd : Cell → PVal → Option Ordering
  | .num q, .num v => some (if q < v then .lt else if q = v then .eq else .gt)
  | .str s, .str v => some (if s < v then .lt else if s = v then .eq else .gt)
  | _, _ => none

/-- `FormulaParser.evaluate_condition`: returns the boolean vector for one
atomic condition over the named column.  (The `question_type` parameter of
the source is never read by the body and is omitted.) -/
def evaluate_condition (df : DataFrame) (var_name op : String) (value : PVal) :
    Except String (List Bool) :=
  match df.getCol? var_name with
  | none => .error ("Variable '" ++ var_name ++ "' not found in data")
  | some col =>
    if op == "C" || op == "NC" || op == "CO" || op == "NCO" then
      -- `if not isinstance(value, list): value = [value]` — through
      -- `parse_variable_condition` these operators always carry a list.
      let vals := match value with
        | .intList l => l
        | .num q => [truncRat q]
        | .str _ => []
      col.mapM (containsCheck op vals)
    else if op == "=" then .ok (col.map (fun c => cellEq c value))
    else if op == "!=" then .ok (col.map (fun c => !cellEq c value))
    else if op == ">" then .ok (col.map (fun c => cellOrd c value == some .gt))
    else if op == "<" then .ok (col.map (fun c => cellOrd c value == some .lt))
    else if op == ">=" then
      .ok (col.map (fun c => cellOrd c value == some .gt || cellOrd c value == some .eq))
    else if op == "<=" then
      .ok (col.map (fun c => cellOrd c value == some .lt || cellOrd c value == some .eq))
    else .error ("Unknown operator: " ++ op)

/-! ## `FormulaParser.evaluate_formula` -/

/-- Whether the combination steps use OR: the source tests
`' or ' in formula.lower()` once per join. -/
def usesOr (formula : String) : Bool := strHasSub (pyLower formula) " or "

/-- One combination step of `evaluate_formula`'s loop over the remaining
conditions: datamap check, evaluate, then OR or AND onto the accumulator. -/
def evalCombineStep (df : DataFrame) (formula : String) (dm : DataMap)
    (acc : List Bool) (c : String × String × PVal) : Except String (List Bool) :=
  if (dm.get_question c.1).isNone then
    .error ("Variable '" ++ c.1 ++ "' not in datamap")
  else do
    let cv ← evaluate_condition df c.1 c.2.1 c.2.2
    if usesOr formula then pure (List.zipWith (· || ·) acc cv)
    else pure (List.zipWith (· && ·) acc cv)

/-- `FormulaParser.evaluate_formula`: parse, error on zero conditions, check
each variable against the datamap, evaluate each condition, and combine left
to right — every step OR when `usesOr`, else AND. -/
def evaluate_formula (df : DataFrame) (formula : String) (dm : DataMap) :
    Except String (List Bool) := do
  let conds ← parse_variable_condition formula
  match conds with
  | [] => .error ("No valid conditions found in formula: " ++ formula)
  | (v, op, val) :: rest =>
    if (dm.get_question v).isNone then
      .error ("Variable '" ++ v ++ "' not in datamap")
    else do
      let first ← evaluate_condition df v op val
      rest.foldlM (evalCombineStep df formula dm) first

/-! ## `FormulaParser.parse_class_formula`

The source builds the binning predicate by `eval`-ing the formula (with `X`
replaced by `x`) as a Python lambda after a character-whitelist check.  The
language that survives the whitelist and Python's expression grammar is
comparisons between `x` and numeric literals chained with `and`/`or` (with
parentheses); that grammar is embedded here as an AST plus evaluator.  A
formula the grammar rejects (e.g. `X=5`, a Python `SyntaxError`) maps to the
source's "Failed to parse" error. -/

inductive CTok where
  | xvar | andT | orT | num (q : ℚ)
  | lt | le | gt | ge | eq | ne | lp | rp
deriving DecidableEq, Repr

/-- Comparison atoms keep which side `x` stood on. -/
inductive CExpr where
  | cmpL (op : CTok) (rhs : ℚ)      -- x <op> literal
  | cmpR (lhs : ℚ) (op : CTok)      -- literal <op> x
  | andE (a b : CExpr)
  | orE (a b : CExpr)
deriving DecidableEq, Repr

def evalCmp (op : CTok) (a b : ℚ) : Bool :=
  match op with
  | .lt => decide (a < b)
  | .le => decide (a ≤ b)
  | .gt => decide (b < a)
  | .ge => decide (b ≤ a)
  | .eq => decide (a = b)
  | .ne => decide (a ≠ b)
  | _ => false

def evalCE : CExpr → ℚ → Bool
  | .cmpL op r, x => evalCmp op x r
  | .cmpR l op, x => evalCmp op l x
  | .andE a b, x => evalCE a x && evalCE b x
  | .orE a b, x => evalCE a x || evalCE b x

/-- Tokenize the class formula (after `X` → `x`).  Each step consumes at
least one character, so `length` fuel is exact; any unexpected character
fails the tokenizer (Python: `SyntaxError`/`NameError` inside `eval`). -/
def cTokenizeAux : Nat → List Char → Option (List CTok)
  | 0, _ => some []
  | _, [] => some []
  | Nat.succ f, c :: cs =>
    if isWs c then cTokenizeAux f cs
    else if c == '(' then (cTokenizeAux f cs).map (.lp :: ·)
    else if c == ')' then (cTokenizeAux f cs).map (.rp :: ·)
    else if c == '>' then
      match cs with
      | '=' :: cs2 => (cTokenizeAux f cs2).map (.ge :: ·)
      | _ => (cTokenizeAux f cs).map (.gt :: ·)
    else if c == '<' then
      match cs with
      | '=' :: cs2 => (cTokenizeAux f cs2).map (.le :: ·)
      | _ => (cTokenizeAux f cs).map (.lt :: ·)
    else if c == '=' then
      match cs with
      | '=' :: cs2 => (cTokenizeAux f cs2).map (.eq :: ·)
      | _ => none   -- a lone `=` is a Python SyntaxError inside the lambda
    else if c == '!' then
      match cs with
      | '=' :: cs2 => (cTokenizeAux f cs2).map (.ne :: ·)
      | _ => none
    else if c.isDigit || c == '.' then
      let ds := (c :: cs).takeWhile (fun d => d.isDigit || d == '.')
      match pyFloat? (String.mk ds) with
      | some q => (cTokenizeAux f ((c :: cs).drop ds.length)).map (.num q :: ·)
      | none => none
    else if c.isAlpha then
      let ws := (c :: cs).takeWhile Char.isAlpha
      let rest := (c :: cs).drop ws.length
      if String.mk ws = "x" then (cTokenizeAux f rest).map (.xvar :: ·)
      else if String.mk ws = "and" then (cTokenizeAux f rest).map (.andT :: ·)
      else if String.mk ws = "or" then (cTokenizeAux f rest).map (.orT :: ·)
      else none
    else none

def cTokenize (s : String) : Option (List CTok) := cTokenizeAux s.data.length s.data

def isCmpTok : CTok → Bool
  | .lt | .le | .gt | .ge | .eq | .ne => true
  | _ => false

mutual

/-- primary := `x` cmp literal | literal cmp `x` | `(` expr `)` -/
def cParsePrimary : Nat → List CTok → Option (CExpr × List CTok)
  | 0, _ => none
  | Nat.succ f, toks =>
    match toks with
    | .xvar :: op :: .num q :: rest =>
      if isCmpTok op then some (.cmpL op q, rest) else none
    | .num q :: op :: .xvar :: rest =>
      if isCmpTok op then some (.cmpR q op, rest) else none
    | .lp :: rest =>
      match cParseOr f rest with
      | some (e, .rp :: rest2) => some (e, rest2)
      | _ => none
    | _ => none

/-- conjunction := primary (`and` primary)* — `and` binds tighter than `or`. -/
def cParseAnd : Nat → List CTok → Option (CExpr × List CTok)
  | 0, _ => none
  | Nat.succ f, toks => do
    let (e, rest) ← cParsePrimary f toks
    cParseAndRest f e rest

def cParseAndRest : Nat → CExpr → List CTok → Option (CExpr × List CTok)
  | 0, _, _ => none
  | Nat.succ f, acc, toks =>
    match toks with
    | .andT :: rest =>
      match cParsePrimary f rest with
      | some (e, rest2) => cParseAndRest f (.andE acc e) rest2
      | none => none
    | _ => some (acc, toks)

def cParseOr : Nat → List CTok → Option (CExpr × List CTok)
  | 0, _ => none
  | Nat.succ f, toks => do
    let (e, rest) ← cParseAnd f toks
    cParseOrRest f e rest

def cParseOrRest : Nat → CExpr → List CTok → Option (CExpr × List CTok)
  | 0, _, _ => none
  | Nat.succ f, acc, toks =>
    match toks with
    | .orT :: rest =>
      match cParseAnd f rest with
      | some (e, rest2) => cParseOrRest f (.orE acc e) rest2
      | none => none
    | _ => some (acc, toks)

end

/-- The whitelist `set('x0123456789 ()<>=!and.or')` checked on the lowercased
formula. -/
def classAllowedChar (c : Char) : Bool :=
  c.isDigit || c == 'x' || c == ' ' || c == '(' || c == ')' || c == '<' ||
  c == '>' || c == '=' || c == '!' || c == 'a' || c == 'n' || c == 'd' ||
  c == '.' || c == 'o' || c == 'r'

/-- `FormulaParser.parse_class_formula`: `none` when the formula contains no
`X`; otherwise whitelist-check then parse. -/
def parse_class_formula (formula : String) : Except String (Option CExpr) :=
  if !(formula.data.contains 'X') then .ok none
  else
    let safe := String.mk (formula.data.map (fun c => if c == 'X' then 'x' else c))
    if !((pyLower safe).data.all classAllowedChar) then
      .error ("Invalid characters in class formula: " ++ formula)
    else
      match cTokenize safe with
      | none => .error ("Failed to parse class formula '" ++ formula ++ "'")
      | some toks =>
        match cParseOr (toks.length + 1) toks with
        | some (e, []) => .ok (some e)
        | _ => .error ("Failed to parse class formula '" ++ formula ++ "'")

/-! ## `FormulaParser.apply_class` -/

/-- One bin pass: wherever the cell is non-null and the predicate holds, the
cell's result is overwritten with this bin's label (`result.loc[mask & matches]
= label`); otherwise the previous result is kept.  Applying the predicate to a
non-numeric cell raises in pandas and is modelled as the wrapped error. -/
def applyBin (label : String) (ce : CExpr) (series : List Cell)
    (res : List (Option String)) : Except String (List (Option String)) :=
  (series.zip res).mapM (fun p =>
    match p.1 with
    | .null => .ok p.2
    | .num q => .ok (if evalCE ce q then some label else p.2)
    | .str s =>
      .error ("Error applying class '" ++ label ++ "': unorderable cell " ++ s))

/-- One bin of `apply_class`'s loop: parse (raising on a bad formula), skip
when the parse yields no predicate (`continue`), else run the overwrite pass. -/
def binStep (series : List Cell) (res : List (Option String))
    (bin : String × String) : Except String (List (Option String)) := do
  match ← parse_class_formula bin.1 with
  | none => pure res
  | some ce => applyBin bin.2 ce series res

/-- `FormulaParser.apply_class`: start all-null, run the bins in declared
order, each pass overwriting the rows its predicate matches. -/
def apply_class (series : List Cell) (class_bins : List (String × String)) :
    Except String (List (Option String)) :=
  class_bins.foldlM (binStep series)
    (List.replicate series.length (none : Option String))

/-! ## `engines.py`: FilterEngine and ClassEngine -/

/-- `Filter` from `core.py`. -/
structure Filter where
  name : String
  formula : String
  with_na : Bool := false
deriving DecidableEq, Repr

/-- `FilterEngine`: the `filters` dict in insertion order. -/
structure FilterEngine where
  filters : List (String × Filter)
deriving DecidableEq, Repr

namespace FilterEngine

def add_filter (fe : FilterEngine) (f : Filter) : FilterEngine :=
  if fe.filters.any (fun p => p.1 == f.name) then
    ⟨fe.filters.map (fun p => if p.1 == f.name then (f.name, f) else p)⟩
  else
    ⟨fe.filters ++ [(f.name, f)]⟩

/-- `FilterEngine.validate`: for every filter, try
`parse_variable_condition` and record `Filter '<name>': <error>` when (and
only when) the parse raises.  A parse that succeeds — even with zero atomic
conditions — contributes no error. -/
def validate (fe : FilterEngine) : List String :=
  fe.filters.foldl (fun errors p =>
    match parse_variable_condition p.2.formula with
    | .ok _ => errors
    | .error e => errors ++ ["Filter '" ++ p.1 ++ "': " ++ e])
    []

end FilterEngine

/-- `Class` from `core.py`. -/
structure ClassDef where
  name : String
  bins : List (String × String)
  option_na : Bool := false
deriving DecidableEq, Repr

/-- `ClassEngine`: the `classes` dict in insertion order. -/
structure ClassEngine where
  classes : List (String × ClassDef)
deriving DecidableEq, Repr

namespace ClassEngine

def add_class (ce : ClassEngine) (c : ClassDef) : ClassEngine :=
  if ce.classes.any (fun p => p.1 == c.name) then
    ⟨ce.classes.map (fun p => if p.1 == c.name then (c.name, c) else p)⟩
  else
    ⟨ce.classes ++ [(c.name, c)]⟩

def get_class (ce : ClassEngine) (name : String) : Option ClassDef :=
  (ce.classes.find? (fun p => p.1 == name)).map (·.2)

/-- `ClassEngine.apply_class`: look the class up (error when unknown) and run
`FormulaParser.apply_class`, wrapping any error with the class name. -/
def apply_class (ce : ClassEngine) (series : List Cell) (class_name : String) :
    Except String (List (Option String)) :=
  match ce.get_class class_name with
  | none => .error ("Class '" ++ class_name ++ "' not found")
  | some cobj =>
    match Staats.apply_class series cobj.bins with
    | .ok r => .ok r
    | .error e => .error ("Error applying class '" ++ class_name ++ "': " ++ e)

end ClassEngine

/-! ## `recode_engine.py` -/

/-- Scanner for the bracket pattern `\["([^"]+)"\]` used by the recode
engine (variable references without an operator). -/
def matchVarRef (cs : List Char) : Option (String × List Char) :=
  match cs with
  | '[' :: '"' :: rest =>
    let nm := rest.takeWhile (fun c => !(c == '"'))
    if nm.isEmpty then none
    else
      match rest.drop nm.length with
      | '"' :: ']' :: r => some (String.mk nm, r)
      | _ => none
  | _ => none

def findVarRefsAux : Nat → List Char → List String
  | 0, _ => []
  | Nat.succ f, cs =>
    match matchVarRef cs with
    | some (m, rest) => m :: findVarRefsAux f rest
    | none =>
      match cs with
      | [] => []
      | _ :: t => findVarRefsAux f t

/-- `var_pattern.findall(formula)`. -/
def findVarRefs (s : String) : List String := findVarRefsAux s.data.length s.data

/-- `var_pattern.search(formula)`: the first match only. -/
def searchVarRef (s : String) : Option String := (findVarRefs s).head?

/-- The stripped, non-blank lines of a recode formula. -/
def recodeLines (formula : String) : List String :=
  ((splitChar '\n' formula).map pyTrim).filter (fun l => l ≠ "")

/-- `line.split(':', 1)` guarded by `':' in line`. -/
def splitColonOnce (line : String) : Option (String × String) :=
  match splitChar ':' line with
  | c :: rest => if rest.isEmpty then none else some (c, joinWith ":" rest)
  | [] => none

/-- `result.loc[mask] = code`: overwrite the masked rows, keep the rest. -/
def maskAssign (res : List (Option Int)) (mask : List Bool) (code : Int) :
    List (Option Int) :=
  List.zipWith (fun r m => if m then some code else r) res mask

/-- One line of `QualiUniqueRecode.calculate`'s loop: skip a line without
`:` (`continue`), parse the code with `int` (raising unwrapped — the `int`
call sits outside the line's `try`), evaluate the condition (raising wrapped
with the recode name and line), and overwrite the matching rows. -/
def quStep (rname : String) (df : DataFrame) (dm : DataMap)
    (res : List (Option Int)) (line : String) : Except String (List (Option Int)) :=
  match splitColonOnce line with
  | none => pure res
  | some (cstr, condRaw) => do
    let code ← match pyInt? cstr with
      | some c => pure c
      | none => throw ("invalid literal for int() with base 10: " ++ pyTrim cstr)
    match evaluate_formula df (pyTrim condRaw) dm with
    | .ok mask => pure (maskAssign res mask code)
    | .error e =>
      throw ("Error evaluating recode '" ++ rname ++ "', line '" ++ line ++ "': " ++ e)

/-- `QualiUniqueRecode.calculate`: start from an all-null Int64 series and,
for each `code: condition` line in declared order, overwrite the rows the
condition matches with that line's code. -/
def qualiUniqueCalc (rname formula : String) (df : DataFrame) (dm : DataMap) :
    Except String (List (Option Int)) :=
  (recodeLines formula).foldlM (quStep rname df dm)
    (List.replicate df.nrows (none : Option Int))

/-- `selections[idx].append(code) if code not in selections[idx]` for the
rows a line matches. -/
def selAssign (sel : List (List Int)) (mask : List Bool) (code : Int) :
    List (List Int) :=
  List.zipWith (fun s m => if m && !(s.contains code) then s ++ [code] else s) sel mask

/-- Insertion sort used for Python `sorted` over integers. -/
def sortInts (l : List Int) : List Int :=
  l.foldr (fun a acc => acc.takeWhile (fun b => b < a) ++ a :: acc.dropWhile (fun b => b < a)) []

/-- One line of `QualiMultipleRecode.calculate`'s loop, mirroring `quStep`
but accumulating into the per-row selections. -/
def qmStep (rname : String) (df : DataFrame) (dm : DataMap)
    (sel : List (List Int)) (line : String) : Except String (List (List Int)) :=
  match splitColonOnce line with
  | none => pure sel
  | some (cstr, condRaw) => do
    let code ← match pyInt? cstr with
      | some c => pure c
      | none => throw ("invalid literal for int() with base 10: " ++ pyTrim cstr)
    match evaluate_formula df (pyTrim condRaw) dm with
    | .ok mask => pure (selAssign sel mask code)
    | .error e =>
      throw ("Error evaluating recode '" ++ rname ++ "', line '" ++ line ++ "': " ++ e)

/-- `QualiMultipleRecode.calculate`: accumulate every matching line's code per
row, then serialize each non-empty selection as sorted comma-separated text;
rows with no matching line stay null. -/
def qualiMultipleCalc (rname formula : String) (df : DataFrame) (dm : DataMap) :
    Except String (List (Option String)) := do
  let sel ← (recodeLines formula).foldlM (qmStep rname df dm)
    (List.replicate df.nrows ([] : List Int))
  pure (sel.map (fun codes =>
    if codes.isEmpty then none
    else some (joinWith "," ((sortInts codes).map intToString))))

/-- `NumberOfAnswersRecode.calculate`'s `count_answers` per cell. -/
def countAnswers : Cell → Nat
  | .null => 0
  | .str s => (((splitChar ',' s).map pyTrim).filter (fun p => p ≠ "")).length
  | .num _ => 1

def numberOfAnswersCalc (formula : String) (df : DataFrame) :
    Except String (List Cell) :=
  match searchVarRef formula with
  | none => .error ("Could not parse variable from formula: " ++ formula)
  | some var =>
    match df.getCol? var with
    | none => .error ("Variable '" ++ var ++ "' not found in data")
    | some col => .ok (col.map (fun c => .num (countAnswers c)))

/-- Order used by Python `sorted` over the observed (non-null) cell values.
The observed values are homogeneous in practice (MultiChoice text); a mixed
numeric/text list would raise `TypeError` in Python and is given an arbitrary
stable order here. -/
def cellLeB : Cell → Cell → Bool
  | .num a, .num b => decide (a ≤ b)
  | .str a, .str b => decide (a ≤ b)
  | .num _, _ => true
  | _, _ => false

def sortCells (l : List Cell) : List Cell :=
  l.foldr (fun a acc =>
    acc.takeWhile (fun b => !(cellLeB a b)) ++ a :: acc.dropWhile (fun b => !(cellLeB a b))) []

/-- `CombinationRecode.calculate`: every distinct non-null value of the source
column, in sorted order, is mapped to the ascending codes 1, 2, …; null cells
map to null.  (The side table `self.combo_codes` is bookkeeping for labels and
is not modelled.) -/
def combinationCalc (formula : String) (df : DataFrame) :
    Except String (List Cell) :=
  match searchVarRef formula with
  | none => .error ("Could not parse variable from formula: " ++ formula)
  | some var =>
    match df.getCol? var with
    | none => .error ("Variable '" ++ var ++ "' not found in data")
    | some col =>
      let uniq := sortCells (col.filter (fun c => c ≠ Cell.null)).dedup
      .ok (col.map (fun c =>
        if c = Cell.null then Cell.null
        else
          match uniq.indexOf? c with
          | some i => .num ((i : ℚ) + 1)
          | none => .null))

/-- `WeightRecode.calculate`: start every row at weight 1.0 and overwrite, in
declared pair order, wherever a condition matches. -/
def weightCalc (weights : List (String × ℚ)) (df : DataFrame) (dm : DataMap) :
    Except String (List ℚ) :=
  weights.foldlM (fun res p =>
    match evaluate_formula df p.1 dm with
    | .ok mask => pure (List.zipWith (fun r m => if m then p.2 else r) res mask)
    | .error e =>
      throw ("Error applying weight condition '" ++ p.1 ++ "': " ++ e))
    (List.replicate df.nrows (1 : ℚ))

/-- `QualiMultiINIRecode.calculate`'s `add_subtotals` per cell: parse the
cell's code list, append each subtotal code whose member set meets the
original codes, and re-serialize sorted. -/
def addSubtotals (subtotals : List (Int × List Int)) (cell : Cell) :
    Except String Cell :=
  match cell with
  | .null => .ok .null
  | .num q => .ok (.str (joinWith ","
      ((sortInts (subtotalsAdd subtotals [truncRat q])).map intToString)))
  | .str s =>
    let parts := ((splitChar ',' s).map pyTrim).filter (fun p => p ≠ "")
    match parts.mapM pyInt? with
    | some codes => .ok (.str (joinWith ","
        ((sortInts (subtotalsAdd subtotals codes)).map intToString)))
    | none => .error ("invalid literal for int() with base 10 in cell: " ++ s)
where
  subtotalsAdd (sts : List (Int × List Int)) (codes : List Int) : List Int :=
    sts.foldl (fun acc st =>
      if st.2.any (fun c => codes.contains c) && !(acc.contains st.1)
      then acc ++ [st.1] else acc) codes

def qualiMultiINICalc (formula : String) (subtotals : List (Int × List Int))
    (df : DataFrame) : Except String (List Cell) :=
  match searchVarRef formula with
  | none => .error ("Could not parse variable from formula: " ++ formula)
  | some var =>
    match df.getCol? var with
    | none => .error ("Variable '" ++ var ++ "' not found in data")
    | some col => col.mapM (addSubtotals subtotals)

/-- The recode variants of `recode_engine.py` as a closed sum. -/
inductive Recode where
  | qualiUnique (name title formula : String) (codes : List (Int × String))
  | qualiMultiple (name title formula : String) (codes : List (Int × String))
  | numeric (name title formula : String)
  | numberOfAnswers (name title formula : String)
  | combination (name title formula : String)
  | weight (name title formula : String) (weights : List (String × ℚ))
  | qualiMultiINI (name title formula : String) (codes : List (Int × String))
      (subtotals : List (Int × List Int))
deriving DecidableEq, Repr

namespace Recode

def name : Recode → String
  | .qualiUnique n _ _ _ => n
  | .qualiMultiple n _ _ _ => n
  | .numeric n _ _ => n
  | .numberOfAnswers n _ _ => n
  | .combination n _ _ => n
  | .weight n _ _ _ => n
  | .qualiMultiINI n _ _ _ _ => n

def title : Recode → String
  | .qualiUnique _ t _ _ => t
  | .qualiMultiple _ t _ _ => t
  | .numeric _ t _ => t
  | .numberOfAnswers _ t _ => t
  | .combination _ t _ => t
  | .weight _ t _ _ => t
  | .qualiMultiINI _ t _ _ _ => t

/-- Dispatch of `recode.calculate(df, datamap)`, with each variant's result
serialized back to dataset cells (nullable Int64 and object series alike).
`NumericRecode.calculate` refers to the name `re`, which `recode_engine.py`
never imports at module level, so it raises `NameError` on every call before
doing any work; it is embedded as that error. -/
def calculate (r : Recode) (df : DataFrame) (dm : DataMap) :
    Except String (List Cell) :=
  match r with
  | .qualiUnique n _ f _ =>
    (qualiUniqueCalc n f df dm).map (fun l => l.map (fun o =>
      match o with | some c => .num (c : ℚ) | none => .null))
  | .qualiMultiple n _ f _ =>
    (qualiMultipleCalc n f df dm).map (fun l => l.map (fun o =>
      match o with | some s => .str s | none => .null))
  | .numeric _ _ _ => .error "name 're' is not defined"
  | .numberOfAnswers _ _ f => numberOfAnswersCalc f df
  | .combination _ _ f => combinationCalc f df
  | .weight _ _ _ ws => (weightCalc ws df dm).map (fun l => l.map Cell.num)
  | .qualiMultiINI _ _ f _ sts => qualiMultiINICalc f sts df

end Recode

/-- The Question appended to the schema per recode by
`RecodeEngine.calculate_all`'s `isinstance` chain: SingleChoice for
QualiUnique, MultiChoice for QualiMultiple/INI, Numeric (no codes) for
Numeric, NumberOfAnswers and Weight, and Numeric for everything else
(Combination falls into the `else` branch). -/
def questionFor (r : Recode) : Question :=
  match r with
  | .qualiUnique n t _ cs => ⟨n, .QUALI_UNIQUE, t, cs⟩
  | .qualiMultiple n t _ cs => ⟨n, .QUALI_MULTI, t, cs⟩
  | .qualiMultiINI n t _ cs _ => ⟨n, .QUALI_MULTI, t, cs⟩
  | .numeric n t _ => ⟨n, .NUMERIC, t, []⟩
  | .numberOfAnswers n t _ => ⟨n, .NUMERIC, t, []⟩
  | .weight n t _ _ => ⟨n, .NUMERIC, t, []⟩
  | .combination n t _ => ⟨n, .NUMERIC, t, []⟩

/-- `RecodeEngine.calculate_all`'s loop.  The Python mutates a local copy
`result_df` (lost when the loop raises) and mutates `datamap` in place
(its additions survive a raise); accordingly the embedding returns the
dataframe only through `Except.ok` but always returns the datamap. -/
def calcAllAux : List Recode → DataFrame → DataMap →
    (Except String DataFrame) × DataMap
  | [], df, dm => (.ok df, dm)
  | r :: rs, df, dm =>
    match r.calculate df dm with
    | .error e => (.error ("Error calculating recode '" ++ r.name ++ "': " ++ e), dm)
    | .ok vals =>
      calcAllAux rs (df.setCol r.name vals) (dm.add_question (questionFor r))

structure RecodeEngine where
  recodes : List Recode
deriving DecidableEq, Repr

/-- `RecodeEngine.calculate_all(df, datamap)`. -/
def RecodeEngine.calculate_all (eng : RecodeEngine) (df : DataFrame) (dm : DataMap) :
    (Except String DataFrame) × DataMap :=
  calcAllAux eng.recodes df dm

/-! ## `tab_engine.py`

A contingency table is a labelled matrix of rational cell weights.  In
`generate_tab`, `counts` is always a crosstab with margins over the filtered
observations: `pd.crosstab(..., margins=True)` (unweighted: weight 1 per row),
`pivot_table(values='weight', aggfunc='sum', margins=True)` (weighted), or the
same for the first expanded MultiChoice code.  `crossTabOf` embeds that
construction from the list of per-row `(row-category, column-category, weight)`
observations; the percentage and significance steps then operate on the
table exactly as the source does. -/

structure CrossTab where
  rowLabels : List String
  colLabels : List String
  cells : List (List ℚ)
deriving DecidableEq, Repr

/-- Total weight of the observations satisfying `p`. -/
def sumW (obs : List (String × String × ℚ)) (p : String × String × ℚ → Bool) : ℚ :=
  ((obs.filter p).map (·.2.2)).sum

/-- The distinct observed row categories of an observation list. -/
def rowCatsOf (obs : List (String × String × ℚ)) : List String :=
  (obs.map (·.1)).dedup

/-- The distinct observed column categories of an observation list. -/
def colCatsOf (obs : List (String × String × ℚ)) : List String :=
  (obs.map (·.2.1)).dedup

/-- One body row of the contingency table: the per-column-category sums for
row category `r`, followed by the row's `Total` margin. -/
def bodyRowOf (obs : List (String × String × ℚ)) (r : String) : List ℚ :=
  (colCatsOf obs).map (fun c => sumW obs (fun o => o.1 == r && o.2.1 == c))
    ++ [sumW obs (fun o => o.1 == r)]

/-- The `Total` margin row: per-column-category sums and the grand total. -/
def marginRowOf (obs : List (String × String × ℚ)) : List ℚ :=
  (colCatsOf obs).map (fun c => sumW obs (fun o => o.2.1 == c))
    ++ [sumW obs (fun _ => true)]

/-- `pd.crosstab(row, col, margins=True, margins_name='Total')` /
`pivot_table(aggfunc='sum', margins=True)`: one row per distinct observed row
category, one column per distinct observed column category, a `Total` margin
row and column, each cell the summed weight of its observations. -/
def crossTabOf (obs : List (String × String × ℚ)) : CrossTab :=
  { rowLabels := rowCatsOf obs ++ ["Total"]
    colLabels := colCatsOf obs ++ ["Total"]
    cells := (rowCatsOf obs).map (bodyRowOf obs) ++ [marginRowOf obs] }

/-- `counts.loc['Total']`: the row labelled `Total`. -/
def totalRowOf (ct : CrossTab) : List ℚ :=
  match ct.rowLabels.indexOf? "Total" with
  | some i => ct.cells.getD i []
  | none => []

/-- Step 7, column percentages: `counts.div(counts.loc['Total'], axis=1) * 100`. -/
def colPctTab (ct : CrossTab) : List (List ℚ) :=
  ct.cells.map (fun row => List.zipWith (fun x t => x / t * 100) row (totalRowOf ct))

/-- Step 7, row percentages: `counts.div(counts['Total'], axis=0) * 100`. -/
def rowPctTab (ct : CrossTab) : List (List ℚ) :=
  match ct.colLabels.indexOf? "Total" with
  | some jt => ct.cells.map (fun row => row.map (fun x => x / row.getD jt 0 * 100))
  | none => []

/-- `data.drop('Total')` on both axes at the start of the significance test. -/
def stripTotals (ct : CrossTab) : CrossTab :=
  let rowsKept := (ct.rowLabels.zip ct.cells).filter (fun p => p.1 ≠ "Total")
  { rowLabels := rowsKept.map (·.1)
    colLabels := ct.colLabels.filter (fun c => c ≠ "Total")
    cells := rowsKept.map (fun p =>
      ((ct.colLabels.zip p.2).filter (fun q => q.1 ≠ "Total")).map (·.2)) }

def tabCell (cells : List (List ℚ)) (r j : Nat) : ℚ := (cells.getD r []).getD j 0

/-- `data.sum(axis=0)` for column `j`. -/
def colTotalAt (cells : List (List ℚ)) (j : Nat) : ℚ :=
  (cells.map (fun row => row.getD j 0)).sum

/-- `proportions = data / col_totals`. -/
def propAt (cells : List (List ℚ)) (r j : Nat) : ℚ :=
  tabCell cells r j / colTotalAt cells j

/-- The letters collected for cell `(r, i)`, as column indices (the source
letter for index `j` is `chr(65 + j)`, injective in `j`): every other column
`j` whose bases are positive, whose two-proportion z-test `sig` fires, and
whose proportion column `i` strictly exceeds.  `sig c_i n_i c_j n_j` stands
for the numeric `se > 0 and p_value < alpha` computation — irrational
(`sqrt`, normal CDF), so the marking invariants are proved for every such
test.  `List.range` keeps the letters in ascending (= sorted) order as
`''.join(sorted(...))` does. -/
def zMarkers (sig : ℚ → ℚ → ℚ → ℚ → Bool) (cells : List (List ℚ))
    (ncols r i : Nat) : List Nat :=
  (List.range ncols).filter (fun j =>
    j ≠ i && decide (0 < colTotalAt cells i) && decide (0 < colTotalAt cells j)
      && sig (tabCell cells r i) (colTotalAt cells i)
             (tabCell cells r j) (colTotalAt cells j)
      && decide (propAt cells r j < propAt cells r i))

/-- `SignificanceTest.column_z_tests`, parametric in the z-test `sig`: strip
the totals, return an empty marker table when fewer than two data columns
remain, else the letter list for every cell. -/
def column_z_tests (sig : ℚ → ℚ → ℚ → ℚ → Bool) (ct : CrossTab) :
    List (List (List Nat)) :=
  if (stripTotals ct).colLabels.length < 2 then
    (stripTotals ct).cells.map (fun _ => [])
  else
    (List.range (stripTotals ct).rowLabels.length).map (fun r =>
      (List.range (stripTotals ct).colLabels.length).map (fun i =>
        zMarkers sig (stripTotals ct).cells
          ((stripTotals ct).colLabels.length) r i))

/-! ## Specification-side definitions used by the theorems -/

/-- The boolean vectors of a condition list, one per condition. -/
def condVectors (df : DataFrame) (conds : List (String × String × PVal)) :
    Except String (List (List Bool)) :=
  conds.mapM (fun c => evaluate_condition df c.1 c.2.1 c.2.2)

/-- The `code: condition` pairs a recode formula's lines yield (lines without
a `:` drop out, mirroring the `continue`). -/
def quLinePairs (formula : String) : List (String × String) :=
  (recodeLines formula).filterMap splitColonOnce

/-- Does formula line `line` carry a code and a condition matching row `i`?
Returns that code. -/
def lineMatch (df : DataFrame) (dm : DataMap) (i : Nat) (line : String) :
    Option Int :=
  match splitColonOnce line with
  | none => none
  | some (cstr, condRaw) =>
    match pyInt? cstr, evaluate_formula df (pyTrim condRaw) dm with
    | some c, .ok mask => if mask.getD i false then some c else none
    | _, _ => none

/-- The codes of the formula lines whose condition matches row `i`, in
declared line order. -/
def matchingCodes (df : DataFrame) (dm : DataMap) (formula : String) (i : Nat) :
    List Int :=
  (recodeLines formula).filterMap (lineMatch df dm i)

/-- The last element of `l`, defaulting to `base`. -/
def lastOr {α : Type} (l : List α) (base : Option α) : Option α :=
  match l.getLast? with
  | some c => some c
  | none => base

/-- The code of the last matching line for row `i`, if any. -/
def lastCodeAt (df : DataFrame) (dm : DataMap) (formula : String) (i : Nat) :
    Option Int :=
  lastOr (matchingCodes df dm formula i) none

/-- Does bin `b` parse to a predicate matching cell value `q`? Returns its
label. -/
def binMatch (q : ℚ) (b : String × String) : Option String :=
  match parse_class_formula b.1 with
  | .ok (some ce) => if evalCE ce q then some b.2 else none
  | _ => none

/-- The labels of the bins whose parsed predicate matches cell value `q`, in
declared bin order (bins whose formula has no `X` drop out, mirroring the
`continue`). -/
def matchingBins (bins : List (String × String)) (q : ℚ) : List String :=
  bins.filterMap (binMatch q)

/-- A ClassEngine with one registered class, `Overlap`, whose two bins both
match every value at least 18. -/
def egCE : ClassEngine :=
  ⟨[("Overlap", ⟨"Overlap", [("X>=18", "A"), ("X>=18", "B")], false⟩)]⟩

/-- A two-recode engine whose first recode succeeds and whose second (a
`NumericRecode`, which always raises `NameError` because `recode_engine.py`
never imports `re` at module level) fails. -/
def egEngine : RecodeEngine :=
  ⟨[.numberOfAnswers "Cnt" "count" "[\"A\"]", .numeric "Bad" "bad" "[\"B\"]"]⟩

/-- Decidable equality of `Except` results, so that concrete runs of the
embedded functions can be checked by `decide`. -/
instance {ε α : Type} [DecidableEq ε] [DecidableEq α] : DecidableEq (Except ε α) :=
  fun x y =>
  match x, y with
  | .ok a, .ok b =>
    if h : a = b then .isTrue (h ▸ rfl)
    else .isFalse (fun hh => h (Except.ok.inj hh))
  | .error a, .error b =>
    if h : a = b then .isTrue (h ▸ rfl)
    else .isFalse (fun hh => h (Except.error.inj hh))
  | .ok _, .error _ => .isFalse (fun hh => Except.noConfusion hh)
  | .error _, .ok _ => .isFalse (fun hh => Except.noConfusion hh)

/-- Row count 2 dataset used by the concrete checks below. -/
def egDF : DataFrame := ⟨2, [("A", [Cell.num 1, Cell.null]), ("B", [Cell.num 2, Cell.num 3])]⟩

/-- Schema for `egDF`. -/
def egDM : DataMap := ⟨[("A", ⟨"A", .NUMERIC, "A", []⟩), ("B", ⟨"B", .NUMERIC, "B", []⟩)]⟩

/-! ## General lemmas about the embedding's building blocks -/

theorem mapM_ok_length {α β : Type} (f : α → Except String β) :
    ∀ {xs : List α} {ys : List β}, xs.mapM f = .ok ys → ys.length = xs.length := by
  intro xs
  induction xs with
  | nil =>
    intro ys h
    simp only [List.mapM_nil] at h
    cases h
    rfl
  | cons x xs ih =>
    intro ys h
    rw [List.mapM_cons] at h
    cases hx : f x with
    | error e => rw [hx] at h; cases h
    | ok y =>
      rw [hx] at h
      cases hxs : xs.mapM f with
      | error e => rw [hxs] at h; cases h
      | ok ys' =>
        rw [hxs] at h
        cases h
        simp [ih hxs]

theorem mapM_ok_get {α β : Type} (f : α → Except String β) :
    ∀ {xs : List α} {ys : List β}, xs.mapM f = .ok ys →
    ∀ {i : Nat} {a : α}, xs[i]? = some a → ∃ b, f a = .ok b ∧ ys[i]? = some b := by
  intro xs
  induction xs with
  | nil => intro ys h i a ha; cases ha
  | cons x xs ih =>
    intro ys h i a ha
    rw [List.mapM_cons] at h
    cases hx : f x with
    | error e => rw [hx] at h; cases h
    | ok y =>
      rw [hx] at h
      cases hxs : xs.mapM f with
      | error e => rw [hxs] at h; cases h
      | ok ys' =>
        rw [hxs] at h
        cases h
        cases i with
        | zero =>
          simp only [List.getElem?_cons_zero, Option.some.injEq] at ha
          cases ha
          exact ⟨y, hx, by simp⟩
        | succ n =>
          rw [List.getElem?_cons_succ] at ha
          obtain ⟨b, hb, hys⟩ := ih hxs ha
          exact ⟨b, hb, by simpa using hys⟩

theorem exceptBind_ok {α β : Type} (a : α) (f : α → Except String β) :
    (Except.ok a >>= f) = f a := rfl

theorem foldlM_skip {γ α : Type} (g : γ → α → Except String γ) :
    ∀ (xs : List α) (init : γ), (∀ x ∈ xs, ∀ acc, g acc x = .ok acc) →
    xs.foldlM g init = .ok init := by
  intro xs
  induction xs with
  | nil => intro init _; rfl
  | cons x xs ih =>
    intro init h
    rw [List.foldlM_cons, h x (List.mem_cons_self x xs)]
    exact ih init (fun y hy acc => h y (List.mem_cons_of_mem x hy) acc)

theorem zipWith_getD {α β γ : Type} (f : α → β → γ) (da : α) (db : β) (dc : γ) :
    ∀ (l₁ : List α) (l₂ : List β) (i : Nat), i < l₁.length → i < l₂.length →
    (List.zipWith f l₁ l₂).getD i dc = f (l₁.getD i da) (l₂.getD i db) := by
  intro l₁
  induction l₁ with
  | nil => intro l₂ i h1 _; cases h1
  | cons a l₁ ih =>
    intro l₂ i h1 h2
    cases l₂ with
    | nil => cases h2
    | cons b l₂ =>
      cases i with
      | zero => rfl
      | succ n =>
        simp only [List.zipWith_cons_cons, List.getD_cons_succ]
        exact ih l₂ n (Nat.lt_of_succ_lt_succ h1) (Nat.lt_of_succ_lt_succ h2)

theorem getCol?_length {df : DataFrame} (hwf : df.WF) {v : String}
    {col : List Cell} (h : df.getCol? v = some col) : col.length = df.nrows := by
  unfold DataFrame.getCol? at h
  cases hf : df.cols.find? (fun p => p.1 == v) with
  | none => rw [hf] at h; cases h
  | some p =>
    rw [hf] at h
    cases h
    exact hwf p (List.mem_of_find?_eq_some hf)

theorem evaluate_condition_length {df : DataFrame} (hwf : df.WF)
    {v op : String} {val : PVal} {l : List Bool}
    (h : evaluate_condition df v op val = .ok l) : l.length = df.nrows := by
  cases hcol : df.getCol? v with
  | none => simp [evaluate_condition, hcol] at h
  | some col =>
    have hc := getCol?_length hwf hcol
    simp only [evaluate_condition, hcol] at h
    split at h
    · exact (mapM_ok_length _ h).trans hc
    · split at h
      · cases h; simpa using hc
      · split at h
        · cases h; simpa using hc
        · split at h
          · cases h; simpa using hc
          · split at h
            · cases h; simpa using hc
            · split at h
              · cases h; simpa using hc
              · split at h
                · cases h; simpa using hc
                · cases h

theorem evalCombineStep_length {df : DataFrame} (hwf : df.WF)
    {formula : String} {dm : DataMap} {acc l : List Bool}
    {c : String × String × PVal} (hacc : acc.length = df.nrows)
    (h : evalCombineStep df formula dm acc c = .ok l) : l.length = df.nrows := by
  unfold evalCombineStep at h
  split at h
  · cases h
  · cases hev : evaluate_condition df c.1 c.2.1 c.2.2 with
    | error e => rw [hev] at h; cases h
    | ok cv =>
      rw [hev] at h
      have hcv := evaluate_condition_length hwf hev
      split at h <;> cases h <;> simp [hacc, hcv]

theorem foldl_combine_length {df : DataFrame} (hwf : df.WF)
    {formula : String} {dm : DataMap} :
    ∀ (rest : List (String × String × PVal)) (acc l : List Bool),
    acc.length = df.nrows →
    rest.foldlM (evalCombineStep df formula dm) acc = .ok l →
    l.length = df.nrows := by
  intro rest
  induction rest with
  | nil => intro acc l hacc h; cases h; exact hacc
  | cons c cs ih =>
    intro acc l hacc h
    rw [List.foldlM_cons] at h
    cases hs : evalCombineStep df formula dm acc c with
    | error e => rw [hs] at h; cases h
    | ok acc' =>
      rw [hs] at h
      exact ih acc' l (evalCombineStep_length hwf hacc hs) h

theorem evaluate_formula_length {df : DataFrame} (hwf : df.WF)
    {formula : String} {dm : DataMap} {l : List Bool}
    (h : evaluate_formula df formula dm = .ok l) : l.length = df.nrows := by
  unfold evaluate_formula at h
  cases hp : parse_variable_condition formula with
  | error e => rw [hp] at h; cases h
  | ok conds =>
    rw [hp] at h
    cases conds with
    | nil => cases h
    | cons c rest =>
      obtain ⟨v, op, val⟩ := c
      simp only [bind, Except.bind] at h
      split at h
      · cases h
      · cases hev : evaluate_condition df v op val with
        | error e => rw [hev] at h; cases h
        | ok first =>
          rw [hev] at h
          exact foldl_combine_length hwf rest first l
            (evaluate_condition_length hwf hev) h

theorem maskAssign_getD (c : Int) :
    ∀ (res : List (Option Int)) (mask : List Bool) (i : Nat),
    i < res.length → i < mask.length →
    (maskAssign res mask c).getD i none =
      if mask.getD i false then some c else res.getD i none := by
  intro res
  induction res with
  | nil => intro mask i h _; cases h
  | cons r rs ih =>
    intro mask i h1 h2
    cases mask with
    | nil => cases h2
    | cons m ms =>
      cases i with
      | zero => rfl
      | succ n =>
        simp only [maskAssign, List.zipWith_cons_cons, List.getD_cons_succ]
        exact ih ms n (Nat.lt_of_succ_lt_succ h1) (Nat.lt_of_succ_lt_succ h2)

theorem maskAssign_length (c : Int) (res : List (Option Int)) (mask : List Bool) :
    (maskAssign res mask c).length = min res.length mask.length := by
  simp [maskAssign]

/-! ## Claim C3 -/

/-- C3, corrected.  Of the operators `=, !=, >, <, >=, <=, C, NC, CO, NCO`,
a null cell evaluates to false under every operator except `!=`: pandas
`col != value` yields `True` on a null cell (`NaN != x` is true), so `!=` is
the one operator under which a null cell evaluates true. -/
theorem c3_amended (df : DataFrame) (var : String) (value : PVal)
    (col : List Cell) (i : Nat) (op : String) (res res2 : List Bool)
    (hcol : df.getCol? var = some col) (hnull : col[i]? = some Cell.null) :
    (op ∈ ["=", ">", "<", ">=", "<=", "C", "NC", "CO", "NCO"] →
      evaluate_condition df var op value = .ok res → res[i]? = some false)
    ∧ (evaluate_condition df var "!=" value = .ok res2 → res2[i]? = some true) := by
  constructor
  · intro hop hok
    simp only [List.mem_cons, List.not_mem_nil, or_false] at hop
    rcases hop with rfl | rfl | rfl | rfl | rfl | rfl | rfl | rfl | rfl
    · simp [evaluate_condition, hcol] at hok
      subst hok; simp [hnull, cellEq]
    · simp [evaluate_condition, hcol] at hok
      subst hok; simp [hnull, cellOrd]
    · simp [evaluate_condition, hcol] at hok
      subst hok; simp [hnull, cellOrd]
    · simp [evaluate_condition, hcol] at hok
      subst hok; simp [hnull, cellOrd]
    · simp [evaluate_condition, hcol] at hok
      subst hok; simp [hnull, cellOrd]
    · simp only [evaluate_condition, hcol,
        show (("C" : String) == "C" || ("C" : String) == "NC"
          || ("C" : String) == "CO" || ("C" : String) == "NCO") = true from rfl,
        if_true] at hok
      obtain ⟨b, hb, hres⟩ := mapM_ok_get _ hok hnull
      simp [containsCheck] at hb
      subst hb; exact hres
    · simp only [evaluate_condition, hcol,
        show (("NC" : String) == "C" || ("NC" : String) == "NC"
          || ("NC" : String) == "CO" || ("NC" : String) == "NCO") = true from rfl,
        if_true] at hok
      obtain ⟨b, hb, hres⟩ := mapM_ok_get _ hok hnull
      simp [containsCheck] at hb
      subst hb; exact hres
    · simp only [evaluate_condition, hcol,
        show (("CO" : String) == "C" || ("CO" : String) == "NC"
          || ("CO" : String) == "CO" || ("CO" : String) == "NCO") = true from rfl,
        if_true] at hok
      obtain ⟨b, hb, hres⟩ := mapM_ok_get _ hok hnull
      simp [containsCheck] at hb
      subst hb; exact hres
    · simp only [evaluate_condition, hcol,
        show (("NCO" : String) == "C" || ("NCO" : String) == "NC"
          || ("NCO" : String) == "CO" || ("NCO" : String) == "NCO") = true from rfl,
        if_true] at hok
      obtain ⟨b, hb, hres⟩ := mapM_ok_get _ hok hnull
      simp [containsCheck] at hb
      subst hb; exact hres
  · intro hok
    simp [evaluate_condition, hcol] at hok
    subst hok; simp [hnull, cellEq]

/-- C3 counterexample: under the claim every listed operator evaluates a null
cell to false, but for `!=` the source evaluates a null cell to true
(`col != value` is elementwise true on NaN). -/
theorem c3_counterexample :
    evaluate_condition ⟨1, [("A", [Cell.null])]⟩ "A" "!=" (.num 1) = .ok [true]
    ∧ ¬(evaluate_condition ⟨1, [("A", [Cell.null])]⟩ "A" "!=" (.num 1)
        = .ok [false]) := by
  constructor
  · decide
  · decide

/-- C3 witness: the amended theorem applied at a concrete null cell with the
operator `=`. -/
theorem c3_witness :
    (egDF.getCol? "A" = some [Cell.num 1, Cell.null]
      ∧ [Cell.num 1, Cell.null][1]? = some Cell.null
      ∧ evaluate_condition egDF "A" "=" (.num 1) = .ok [true, false]
      ∧ evaluate_condition egDF "A" "!=" (.num 1) = .ok [false, true])
    ∧ ([true, false] : List Bool)[1]? = some false
    ∧ ([false, true] : List Bool)[1]? = some true := by
  refine ⟨⟨by decide, by decide, by decide, by decide⟩, ?_, ?_⟩
  · exact (c3_amended egDF "A" (.num 1) [Cell.num 1, Cell.null] 1 "="
      [true, false] [false, true] (by decide) (by decide)).1
      (by decide) (by decide)
  · exact (c3_amended egDF "A" (.num 1) [Cell.num 1, Cell.null] 1 "="
      [true, false] [false, true] (by decide) (by decide)).2 (by decide)

/-! ## Claim C4 -/

/-- C4, code bug exhibited.  A filter whose formula parses to zero atomic
conditions produces no entry in `FilterEngine.validate`'s error list:
`parse_variable_condition` returns an empty list without raising, so the
`try/except` in `validate` collects nothing — even though evaluating the same
formula would raise `No valid conditions found`, which per the spec is
exactly what `validate` exists to report. -/
theorem c4_validate_misses_zero_condition_formulas :
    FilterEngine.validate ⟨[("NoCond", ⟨"NoCond", "no conditions here", false⟩)]⟩ = []
    ∧ parse_variable_condition "no conditions here" = .ok []
    ∧ evaluate_formula egDF "no conditions here" egDM
      = .error "No valid conditions found in formula: no conditions here" := by
  refine ⟨by decide, by decide, by decide⟩

/-! ## Claim C10 -/

/-- C10, confirmed.  In `QualiUniqueRecode.calculate` and
`QualiMultipleRecode.calculate`, every stripped non-empty formula line
without a `:` separator hits `continue`: when a formula consists only of such
lines, both calculations succeed (no error is raised) and return the all-null
column. -/
theorem c10_colonless_lines_skipped (rname formula : String) (df : DataFrame)
    (dm : DataMap) (h : ∀ l ∈ recodeLines formula, splitColonOnce l = none) :
    qualiUniqueCalc rname formula df dm = .ok (List.replicate df.nrows none)
    ∧ qualiMultipleCalc rname formula df dm = .ok (List.replicate df.nrows none) := by
  constructor
  · exact foldlM_skip _ _ _ (fun l hl acc => by simp [quStep, h l hl]; rfl)
  · unfold qualiMultipleCalc
    rw [foldlM_skip (qmStep rname df dm) (recodeLines formula)
      (List.replicate df.nrows []) (fun l hl acc => by simp [qmStep, h l hl]; rfl)]
    simp

/-- C10 witness: a two-line formula with no `:` anywhere runs without error
and yields the all-null column under both recode variants. -/
theorem c10_witness :
    (recodeLines "hello\nworld  " = ["hello", "world"]
      ∧ splitColonOnce "hello" = none ∧ splitColonOnce "world" = none)
    ∧ qualiUniqueCalc "R" "hello\nworld  " egDF egDM = .ok [none, none]
    ∧ qualiMultipleCalc "R" "hello\nworld  " egDF egDM = .ok [none, none] := by
  refine ⟨⟨by decide, by decide, by decide⟩, ?_, ?_⟩
  · simpa using
      (c10_colonless_lines_skipped "R" "hello\nworld  " egDF egDM (by decide)).1
  · simpa using
      (c10_colonless_lines_skipped "R" "hello\nworld  " egDF egDM (by decide)).2

/-! ## Claim C1 -/

theorem lastOr_cons {α : Type} (c : α) (l : List α) (b : Option α) :
    lastOr (c :: l) b = lastOr l (some c) := by
  cases l with
  | nil => rfl
  | cons d l =>
    cases hdl : (d :: l).getLast? with
    | none => simp [List.getLast?_eq_none_iff] at hdl
    | some e => simp [lastOr, List.getLast?_cons_cons, hdl]

/-- The fold in `QualiUniqueRecode.calculate` realizes "last matching line
wins": the final value at row `i` is the last matching line's code, falling
back to the accumulator's incoming value at `i`. -/
theorem quFold_lastMatch (rname : String) (df : DataFrame) (dm : DataMap)
    (hwf : df.WF) (i : Nat) (hi : i < df.nrows) :
    ∀ (lines : List String) (init res : List (Option Int)),
    init.length = df.nrows →
    lines.foldlM (quStep rname df dm) init = .ok res →
    res.getD i none = lastOr (lines.filterMap (lineMatch df dm i)) (init.getD i none) := by
  intro lines
  induction lines with
  | nil =>
    intro init res _ hfold
    cases hfold
    rfl
  | cons line lines ih =>
    intro init res hlen hfold
    rw [List.foldlM_cons] at hfold
    cases hsplit : splitColonOnce line with
    | none =>
      have hstep : quStep rname df dm init line = .ok init := by
        simp [quStep, hsplit]; rfl
      rw [hstep] at hfold
      have : (lineMatch df dm i line) = none := by simp [lineMatch, hsplit]
      rw [List.filterMap_cons, this]
      exact ih init res hlen hfold
    | some p =>
      obtain ⟨cstr, condRaw⟩ := p
      cases hint : pyInt? cstr with
      | none =>
        have hstep : quStep rname df dm init line = .error
            ("invalid literal for int() with base 10: " ++ pyTrim cstr) := by
          simp [quStep, hsplit, hint]; rfl
        rw [hstep] at hfold
        cases hfold
      | some c =>
        cases hev : evaluate_formula df (pyTrim condRaw) dm with
        | error e =>
          have hstep : quStep rname df dm init line = .error
              ("Error evaluating recode '" ++ rname ++ "', line '" ++ line
                ++ "': " ++ e) := by
            simp [quStep, hsplit, hint, hev]; rfl
          rw [hstep] at hfold
          cases hfold
        | ok mask =>
          have hstep : quStep rname df dm init line
              = .ok (maskAssign init mask c) := by
            simp [quStep, hsplit, hint, hev]; rfl
          rw [hstep] at hfold
          have hmlen := evaluate_formula_length hwf hev
          have hlen' : (maskAssign init mask c).length = df.nrows := by
            rw [maskAssign_length, hlen, hmlen]; exact Nat.min_self _
          have hrec := ih (maskAssign init mask c) res hlen' hfold
          have hgd := maskAssign_getD c init mask i
            (by rw [hlen]; exact hi) (by rw [hmlen]; exact hi)
          have hline : lineMatch df dm i line
              = if mask.getD i false then some c else none := by
            simp [lineMatch, hsplit, hint, hev]
          rw [hrec, hgd, List.filterMap_cons]
          cases hm : mask.getD i false with
          | false =>
            have hline' : lineMatch df dm i line = none := by
              rw [hline, hm]; rfl
            rw [hline']
            rfl
          | true =>
            have hline' : lineMatch df dm i line = some c := by
              rw [hline, hm]; rfl
            rw [hline']
            exact (lastOr_cons c (List.filterMap (lineMatch df dm i) lines)
              (init.getD i none)).symm

/-- C1, corrected.  `QualiUniqueRecode.calculate` assigns, for each row, the
code of the LAST formula line (in declared order) whose condition matches the
row — `result.loc[mask] = code` overwrites earlier assignments — and a row
matching no line remains null (`lastCodeAt` is `none` when no line matches). -/
theorem c1_amended (rname formula : String) (df : DataFrame) (dm : DataMap)
    (res : List (Option Int)) (hwf : df.WF) (i : Nat) (hi : i < df.nrows)
    (hok : qualiUniqueCalc rname formula df dm = .ok res) :
    res.getD i none = lastCodeAt df dm formula i := by
  unfold qualiUniqueCalc at hok
  have := quFold_lastMatch rname df dm hwf i hi (recodeLines formula)
    (List.replicate df.nrows none) res (by simp) hok
  rw [this]
  have : (List.replicate df.nrows (none : Option Int)).getD i none = none := by
    rw [List.getD_eq_getElem?_getD, List.getElem?_replicate, if_pos hi]
    rfl
  rw [this]
  rfl

/-- C1 counterexample: a two-line recode formula whose lines both match row 0
(first line's code 1, second line's code 2) produces code 2 — the later
matching line — not the first line's code 1 as the claim states. -/
theorem c1_counterexample :
    qualiUniqueCalc "R" "1: [\"A\"=1]\n2: [\"A\"=1]" egDF egDM = .ok [some 2, none]
    ∧ evaluate_formula egDF "[\"A\"=1]" egDM = .ok [true, false]
    ∧ ¬(qualiUniqueCalc "R" "1: [\"A\"=1]\n2: [\"A\"=1]" egDF egDM
        = .ok [some 1, none]) := by
  refine ⟨by decide, by decide, by decide⟩

/-- C1 witness: the amended theorem applied to the concrete overlapping
two-line formula; the last matching line's code, 2, is what row 0 receives,
and the null row 1 stays null. -/
theorem c1_witness :
    (egDF.WF ∧ 0 < egDF.nrows ∧ 1 < egDF.nrows)
    ∧ ([some 2, none].getD 0 none
        = lastCodeAt egDF egDM "1: [\"A\"=1]\n2: [\"A\"=1]" 0)
    ∧ ([some 2, none].getD 1 none
        = lastCodeAt egDF egDM "1: [\"A\"=1]\n2: [\"A\"=1]" 1)
    ∧ lastCodeAt egDF egDM "1: [\"A\"=1]\n2: [\"A\"=1]" 0 = some 2
    ∧ lastCodeAt egDF egDM "1: [\"A\"=1]\n2: [\"A\"=1]" 1 = none := by
  refine ⟨⟨by decide, by decide, by decide⟩, ?_, ?_, by decide, by decide⟩
  · exact c1_amended "R" "1: [\"A\"=1]\n2: [\"A\"=1]" egDF egDM [some 2, none]
      (by decide) 0 (by decide) (by decide)
  · exact c1_amended "R" "1: [\"A\"=1]\n2: [\"A\"=1]" egDF egDM [some 2, none]
      (by decide) 1 (by decide) (by decide)

/-! ## Claim C2 -/

theorem zip_getElem? {α β : Type} :
    ∀ (u : List α) (v : List β) (n : Nat) (p : α) (q : β),
    u[n]? = some p → v[n]? = some q → (u.zip v)[n]? = some (p, q) := by
  intro u
  induction u with
  | nil => intro v n p q h1 _; cases h1
  | cons x xs ih =>
    intro v n p q h1 h2
    cases v with
    | nil => cases h2
    | cons y ys =>
      cases n with
      | zero =>
        simp only [List.getElem?_cons_zero, Option.some.injEq] at h1 h2
        simp [List.zip_cons_cons, h1, h2]
      | succ m =>
        simp only [List.getElem?_cons_succ] at h1 h2
        simpa [List.zip_cons_cons] using ih ys m p q h1 h2

theorem applyBin_length {label : String} {ce : CExpr} {series : List Cell}
    {res res' : List (Option String)}
    (h : applyBin label ce series res = .ok res') :
    res'.length = (series.zip res).length := mapM_ok_length _ h

/-- The effect of one overwrite pass at one row. -/
theorem applyBin_getD {label : String} {ce : CExpr} {series : List Cell}
    {res res' : List (Option String)}
    (h : applyBin label ce series res = .ok res') {i : Nat} {cell : Cell}
    (hcell : series[i]? = some cell) {r : Option String}
    (hres : res[i]? = some r) :
    (cell ≠ Cell.null → ∀ q, cell = Cell.num q →
      res'[i]? = some (if evalCE ce q then some label else r))
    ∧ (cell = Cell.null → res'[i]? = some r)
    ∧ (∀ s, cell ≠ Cell.str s) := by
  have hz := zip_getElem? series res i cell r hcell hres
  obtain ⟨b, hb, hres'⟩ := mapM_ok_get _ h hz
  refine ⟨?_, ?_, ?_⟩
  · rintro _ q rfl
    simp only [Except.ok.injEq] at hb
    rw [hres', ← hb]
  · rintro rfl
    simp only [Except.ok.injEq] at hb
    rw [hres', ← hb]
  · rintro s rfl
    simp at hb

/-- The fold in `apply_class` realizes "last matching bin wins" per cell:
numeric cells end at the last matching bin's label (falling back to the
incoming accumulator value), null cells keep the accumulator value, and a
run that returned `ok` encountered no text cell at any inspected row. -/
theorem binFold_lastMatch (series : List Cell) :
    ∀ (bins : List (String × String)) (init res : List (Option String)),
    init.length = series.length →
    bins.foldlM (binStep series) init = .ok res →
    ∀ (i : Nat) (cell : Cell) (r : Option String),
    series[i]? = some cell → init[i]? = some r →
    res.getD i none = (match cell with
      | .num q => lastOr (bins.filterMap (binMatch q)) (init.getD i none)
      | _ => init.getD i none) := by
  intro bins
  induction bins with
  | nil =>
    intro init res _ hfold i cell r hcell hr
    cases hfold
    cases cell <;> rfl
  | cons bin bins ih =>
    intro init res hlen hfold i cell r hcell hr
    rw [List.foldlM_cons] at hfold
    cases hp : parse_class_formula bin.1 with
    | error e =>
      have : binStep series init bin = .error e := by
        simp [binStep, hp]; rfl
      rw [this] at hfold
      cases hfold
    | ok o =>
      cases o with
      | none =>
        have : binStep series init bin = .ok init := by
          simp [binStep, hp]; rfl
        rw [this] at hfold
        have hbm : ∀ q : ℚ, binMatch q bin = none := fun q => by
          simp [binMatch, hp]
        have := ih init res hlen hfold i cell r hcell hr
        rw [this]
        cases cell with
        | num q =>
          dsimp only
          rw [List.filterMap_cons, hbm q]
        | null => rfl
        | str s => rfl
      | some ce =>
        have hstep : binStep series init bin = applyBin bin.2 ce series init := by
          simp [binStep, hp]; rfl
        rw [hstep] at hfold
        cases happ : applyBin bin.2 ce series init with
        | error e => rw [happ] at hfold; cases hfold
        | ok mid =>
          rw [happ] at hfold
          have hmidlen : mid.length = series.length := by
            rw [applyBin_length happ, List.length_zip, hlen]
            exact Nat.min_self _
          have hilt : i < series.length := by
            have := List.getElem?_eq_some.mp hcell
            exact this.1
          obtain ⟨hnumfn, hnullfn, hnostr⟩ := applyBin_getD happ hcell hr
          cases cell with
          | str s => exact absurd rfl (hnostr s)
          | null =>
            have hmid := hnullfn rfl
            have := ih mid res hmidlen hfold i Cell.null r hcell hmid
            rw [this]
            simp only []
            rw [List.getD_eq_getElem?_getD, hmid, List.getD_eq_getElem?_getD, hr]
          | num q =>
            have hmid := hnumfn (by simp) q rfl
            have := ih mid res hmidlen hfold i (Cell.num q)
              (if evalCE ce q then some bin.2 else r) hcell hmid
            rw [this]
            dsimp only
            have hbm : binMatch q bin = if evalCE ce q then some bin.2 else none := by
              simp [binMatch, hp]
            rw [List.filterMap_cons, hbm]
            have hmid' : mid.getD i none = if evalCE ce q then some bin.2 else r := by
              rw [List.getD_eq_getElem?_getD, hmid]; rfl
            have hinit' : init.getD i none = r := by
              rw [List.getD_eq_getElem?_getD, hr]; rfl
            rw [hmid', hinit']
            cases hev : evalCE ce q with
            | false => rfl
            | true =>
              exact (lastOr_cons bin.2 (List.filterMap (binMatch q) bins) r).symm

/-- C2, corrected.  `apply_class` evaluates bins in declared order but each
pass overwrites (`result.loc[mask & matches] = label`), so for a cell whose
value matches several bin predicates the LAST-declared matching bin's label
is the result, not the earliest; a cell matching no bin (or null) stays
null. -/
theorem c2_amended (ce : ClassEngine) (cname : String) (cobj : ClassDef)
    (series : List Cell) (res : List (Option String))
    (hget : ce.get_class cname = some cobj)
    (hok : ce.apply_class series cname = .ok res) (i : Nat) :
    (∀ q : ℚ, series[i]? = some (.num q) →
      res.getD i none = lastOr (matchingBins cobj.bins q) none)
    ∧ (series[i]? = some .null → res.getD i none = none) := by
  have hraw : Staats.apply_class series cobj.bins = .ok res := by
    simp only [ClassEngine.apply_class, hget] at hok
    cases hr : Staats.apply_class series cobj.bins with
    | ok r => rw [hr] at hok; cases hok; rfl
    | error e => rw [hr] at hok; cases hok
  unfold Staats.apply_class at hraw
  constructor
  · intro q hcell
    have hilt : i < series.length := (List.getElem?_eq_some.mp hcell).1
    have hinit : (List.replicate series.length (none : Option String))[i]?
        = some none := by
      simp [List.getElem?_replicate, hilt]
    have := binFold_lastMatch series cobj.bins
      (List.replicate series.length none) res (by simp) hraw i (.num q) none
      hcell hinit
    rw [this]
    have : (List.replicate series.length (none : Option String)).getD i none
        = none := by
      rw [List.getD_eq_getElem?_getD, hinit]; rfl
    rw [this]
    rfl
  · intro hcell
    have hilt : i < series.length := (List.getElem?_eq_some.mp hcell).1
    have hinit : (List.replicate series.length (none : Option String))[i]?
        = some none := by
      simp [List.getElem?_replicate, hilt]
    have := binFold_lastMatch series cobj.bins
      (List.replicate series.length none) res (by simp) hraw i .null none
      hcell hinit
    rw [this]
    rw [List.getD_eq_getElem?_getD, hinit]
    rfl

/-- C2 counterexample: the registered class `Overlap` has two bins whose
predicates both match 25; the cell receives the second bin's label `B`, not
the earliest-declared bin's label `A` as the claim states. -/
theorem c2_counterexample :
    ClassEngine.apply_class egCE [Cell.num 25] "Overlap" = .ok [some "B"]
    ∧ parse_class_formula "X>=18" = .ok (some (.cmpL .ge 18))
    ∧ evalCE (.cmpL .ge 18) 25 = true
    ∧ ¬(ClassEngine.apply_class egCE [Cell.num 25] "Overlap" = .ok [some "A"]) := by
  refine ⟨by decide, by decide, by decide, by decide⟩

/-- C2 witness: the amended theorem applied to `Overlap` over the two-cell
series `[25, null]`: the numeric cell gets the last matching label `B`, the
null cell stays null. -/
theorem c2_witness :
    (ClassEngine.get_class egCE "Overlap"
        = some ⟨"Overlap", [("X>=18", "A"), ("X>=18", "B")], false⟩
      ∧ ClassEngine.apply_class egCE [Cell.num 25, Cell.null] "Overlap"
        = .ok [some "B", none])
    ∧ ([some "B", none].getD 0 none
        = lastOr (matchingBins [("X>=18", "A"), ("X>=18", "B")] 25) none)
    ∧ ([some "B", none].getD 1 none = none)
    ∧ lastOr (matchingBins [("X>=18", "A"), ("X>=18", "B")] 25) none
        = some "B" := by
  refine ⟨⟨by decide, by decide⟩, ?_, ?_, by decide⟩
  · exact (c2_amended egCE "Overlap"
      ⟨"Overlap", [("X>=18", "A"), ("X>=18", "B")], false⟩
      [Cell.num 25, Cell.null] [some "B", none] (by decide) (by decide) 0).1
      25 (by decide)
  · exact (c2_amended egCE "Overlap"
      ⟨"Overlap", [("X>=18", "A"), ("X>=18", "B")], false⟩
      [Cell.num 25, Cell.null] [some "B", none] (by decide) (by decide) 1).2
      (by decide)

/-! ## Claim C7 -/

/-- The loop over the remaining conditions equals a left fold of the
per-condition vectors, every step OR when the formula text contains ` or `,
else AND. -/
theorem combineFold_eq (df : DataFrame) (formula : String) (dm : DataMap) :
    ∀ (cs : List (String × String × PVal)) (vs : List (List Bool)) (acc : List Bool),
    condVectors df cs = .ok vs →
    (∀ c ∈ cs, (dm.get_question c.1).isSome) →
    cs.foldlM (evalCombineStep df formula dm) acc =
      .ok (vs.foldl (fun a v =>
        if usesOr formula then List.zipWith (· || ·) a v
        else List.zipWith (· && ·) a v) acc) := by
  intro cs
  induction cs with
  | nil =>
    intro vs acc hv _
    simp only [condVectors, List.mapM_nil] at hv
    cases hv
    rfl
  | cons c cs ih =>
    intro vs acc hv hdm
    simp only [condVectors, List.mapM_cons] at hv
    cases hev : evaluate_condition df c.1 c.2.1 c.2.2 with
    | error e => rw [hev] at hv; cases hv
    | ok v =>
      rw [hev] at hv
      cases hrest : cs.mapM (fun c => evaluate_condition df c.1 c.2.1 c.2.2) with
      | error e => rw [hrest] at hv; cases hv
      | ok vs' =>
        rw [hrest] at hv
        cases hv
        rw [List.foldlM_cons]
        have hsome : (dm.get_question c.1).isSome := hdm c (List.mem_cons_self c cs)
        have hnone : ((dm.get_question c.1).isNone) = false := by
          cases hq : dm.get_question c.1 with
          | none => rw [hq] at hsome; cases hsome
          | some q => rfl
        have hstep : evalCombineStep df formula dm acc c =
            .ok (if usesOr formula then List.zipWith (· || ·) acc v
              else List.zipWith (· && ·) acc v) := by
          simp only [evalCombineStep, hnone, Bool.false_eq_true, if_false, hev,
            exceptBind_ok]
          cases usesOr formula <;> rfl
        rw [hstep]
        have := ih vs' (if usesOr formula then List.zipWith (· || ·) acc v
          else List.zipWith (· && ·) acc v) hrest
          (fun d hd => hdm d (List.mem_cons_of_mem c hd))
        rw [List.foldl_cons]
        exact this

/-- C7, confirmed.  For a formula parsing to two or more atomic conditions
(all of whose variables resolve in the datamap and all of whose vectors
evaluate), `evaluate_formula` combines the per-condition vectors left to
right, and every combination step is OR when the literal formula text
contains the token ` or ` (checked case-insensitively on the whole text),
otherwise every step is AND. -/
theorem c7_confirmed (df : DataFrame) (dm : DataMap) (formula : String)
    (c0 : String × String × PVal) (cs : List (String × String × PVal))
    (v0 : List Bool) (vs : List (List Bool))
    (hp : parse_variable_condition formula = .ok (c0 :: cs))
    (hne : cs ≠ [])
    (hdm : ∀ c ∈ c0 :: cs, (dm.get_question c.1).isSome)
    (hv0 : evaluate_condition df c0.1 c0.2.1 c0.2.2 = .ok v0)
    (hvs : condVectors df cs = .ok vs) :
    evaluate_formula df formula dm =
      .ok (if usesOr formula then vs.foldl (List.zipWith (· || ·)) v0
        else vs.foldl (List.zipWith (· && ·)) v0) := by
  have hrest : ∀ d ∈ cs, (dm.get_question d.1).isSome :=
    fun d hd => hdm d (List.mem_cons_of_mem c0 hd)
  have hfold := combineFold_eq df formula dm cs vs v0 hvs hrest
  obtain ⟨v, op, val⟩ := c0
  have hsome := hdm (v, op, val) (List.mem_cons_self _ cs)
  have hnone : ((dm.get_question v).isNone) = false := by
    cases hq : dm.get_question v with
    | none => rw [hq] at hsome; cases hsome
    | some q => rfl
  simp only [evaluate_formula, hp, exceptBind_ok, hnone, Bool.false_eq_true,
    if_false, hv0]
  rw [hfold]
  cases hor : usesOr formula with
  | false => rfl
  | true => rfl

/-- C7 witness: the confirmed theorem applied to one all-AND and one all-OR
two-condition formula over concrete data. -/
theorem c7_witness :
    (parse_variable_condition "[\"A\"=1] and [\"B\"=2]"
        = .ok [("A", "=", .num 1), ("B", "=", .num 2)]
      ∧ usesOr "[\"A\"=1] and [\"B\"=2]" = false
      ∧ usesOr "[\"A\"=1] or [\"B\"=3]" = true)
    ∧ evaluate_formula egDF "[\"A\"=1] and [\"B\"=2]" egDM = .ok [true, false]
    ∧ evaluate_formula egDF "[\"A\"=1] or [\"B\"=3]" egDM = .ok [true, true] := by
  refine ⟨⟨by decide, by decide, by decide⟩, ?_, ?_⟩
  · have h := c7_confirmed egDF egDM "[\"A\"=1] and [\"B\"=2]"
      ("A", "=", .num 1) [("B", "=", .num 2)] [true, false] [[true, false]]
      (by decide) (by decide) (by decide) (by decide) (by decide)
    exact h.trans (by decide)
  · have h := c7_confirmed egDF egDM "[\"A\"=1] or [\"B\"=3]"
      ("A", "=", .num 1) [("B", "=", .num 3)] [true, false] [[false, true]]
      (by decide) (by decide) (by decide) (by decide) (by decide)
    exact h.trans (by decide)

/-! ## Claims C5 and C6: the recode pipeline -/

theorem find?_replace (name : String) (q : Question) :
    ∀ (l : List (String × Question)), l.any (fun p => p.1 == name) = true →
    (l.map (fun p => if p.1 == name then (name, q) else p)).find?
      (fun p => p.1 == name) = some (name, q) := by
  intro l
  induction l with
  | nil => intro h; cases h
  | cons p l ih =>
    intro h
    cases hp : (p.1 == name) with
    | true =>
      simp only [List.map_cons, hp, if_true, List.find?_cons, beq_self_eq_true]
    | false =>
      rw [List.any_cons, hp, Bool.false_or] at h
      simp only [List.map_cons, hp, Bool.false_eq_true, if_false,
        List.find?_cons, hp]
      exact ih h

theorem find?_map_other (name qname : String) (q : Question) (h : name ≠ qname) :
    ∀ (l : List (String × Question)),
    (l.map (fun p => if p.1 == qname then (qname, q) else p)).find?
      (fun p => p.1 == name) = l.find? (fun p => p.1 == name) := by
  intro l
  have hqn : (qname == name) = false :=
    beq_eq_false_iff_ne.mpr (fun hq => h hq.symm)
  induction l with
  | nil => rfl
  | cons p l ih =>
    cases hp : (p.1 == qname) with
    | true =>
      have hp' : (p.1 == name) = false := by
        rw [(beq_iff_eq ..).mp hp]
        exact hqn
      simp only [List.map_cons, hp, if_true, List.find?_cons, hqn, hp']
      exact ih
    | false =>
      simp only [List.map_cons, hp, Bool.false_eq_true, if_false,
        List.find?_cons]
      cases hn : (p.1 == name) with
      | true => rfl
      | false => exact ih

/-- `datamap.add_question q` makes `q` visible under its own name. -/
theorem add_get_same (dm : DataMap) (q : Question) :
    (dm.add_question q).get_question q.name = some q := by
  unfold DataMap.add_question DataMap.get_question
  cases h : dm.questions.any (fun p => p.1 == q.name) with
  | true =>
    rw [if_pos rfl]
    rw [find?_replace q.name q dm.questions h]
    rfl
  | false =>
    rw [if_neg Bool.false_ne_true]
    have hn : dm.questions.find? (fun p => p.1 == q.name) = none :=
      (List.find?_eq_none).mpr (fun x hx => by
        have hfx := (List.any_eq_false).mp h x hx
        rw [Bool.not_eq_true] at hfx
        rw [hfx]
        exact Bool.false_ne_true)
    rw [List.find?_append, hn, Option.none_or]
    simp [List.find?_cons]

/-- `datamap.add_question q` leaves every other name's lookup unchanged. -/
theorem add_get_other (dm : DataMap) (q : Question) (name : String)
    (h : name ≠ q.name) :
    (dm.add_question q).get_question name = dm.get_question name := by
  unfold DataMap.add_question DataMap.get_question
  cases hany : dm.questions.any (fun p => p.1 == q.name) with
  | true =>
    rw [if_pos rfl]
    rw [find?_map_other name q.name q h dm.questions]
  | false =>
    rw [if_neg Bool.false_ne_true]
    rw [List.find?_append]
    have hs : ([(q.name, q)].find? (fun p => p.1 == name)) = none := by
      simp only [List.find?_cons,
        beq_eq_false_iff_ne.mpr (fun hq => h hq.symm), List.find?_nil]
    rw [hs]
    cases dm.questions.find? (fun p => p.1 == name) <;> rfl

/-- A fresh column append (`df[name] = vals` with `name` new) grows the
column list by one. -/
theorem setCol_length_fresh (df : DataFrame) (name : String) (vals : List Cell)
    (h : df.hasCol name = false) :
    (df.setCol name vals).cols.length = df.cols.length + 1 := by
  unfold DataFrame.setCol
  rw [if_neg (by simp [h])]
  simp

theorem setCol_hasCol_fresh (df : DataFrame) (name other : String)
    (vals : List Cell) (h : df.hasCol name = false) :
    (df.setCol name vals).hasCol other = (df.hasCol other || (name == other)) := by
  unfold DataFrame.setCol
  rw [if_neg (by simp [h])]
  simp [DataFrame.hasCol, List.any_append]

/-- On a run of `calculate_all` that raises, the returned datamap is the input
extended with exactly the Questions of the recodes before the failing one,
and the error message wraps the failing recode's name. -/
theorem calcAll_error_shape :
    ∀ (rs : List Recode) (df : DataFrame) (dm : DataMap) (msg : String)
    (dm' : DataMap), calcAllAux rs df dm = (.error msg, dm') →
    ∃ (k : Nat) (hk : k < rs.length) (e : String),
      msg = "Error calculating recode '" ++ (rs.get ⟨k, hk⟩).name ++ "': " ++ e
      ∧ dm' = (rs.take k).foldl (fun m r => m.add_question (questionFor r)) dm := by
  intro rs
  induction rs with
  | nil => intro df dm msg dm' h; cases h
  | cons r rs ih =>
    intro df dm msg dm' h
    unfold calcAllAux at h
    cases hc : r.calculate df dm with
    | error e =>
      rw [hc] at h
      cases h
      exact ⟨0, Nat.succ_pos _, e, rfl, rfl⟩
    | ok vals =>
      rw [hc] at h
      obtain ⟨k, hk, e, hmsg, hdm⟩ :=
        ih (df.setCol r.name vals) (dm.add_question (questionFor r)) msg dm' h
      exact ⟨k + 1, Nat.succ_lt_succ hk, e, hmsg, by
        simpa [List.take_succ_cons, List.foldl_cons] using hdm⟩

/-- The Question built for a recode keeps the recode's name. -/
theorem questionFor_name (r : Recode) : (questionFor r).name = r.name := by
  cases r <;> rfl

/-- On an error, no schema entry of an untouched name changes. -/
theorem calcAll_ok_get_untouched :
    ∀ (rs : List Recode) (df : DataFrame) (dm : DataMap) (df' : DataFrame)
    (dm' : DataMap) (name : String), calcAllAux rs df dm = (.ok df', dm') →
    (∀ r ∈ rs, r.name ≠ name) →
    dm'.get_question name = dm.get_question name := by
  intro rs
  induction rs with
  | nil =>
    intro df dm df' dm' name h _
    cases h
    rfl
  | cons r rs ih =>
    intro df dm df' dm' name h hname
    unfold calcAllAux at h
    cases hc : r.calculate df dm with
    | error e => rw [hc] at h; cases h
    | ok vals =>
      rw [hc] at h
      have := ih (df.setCol r.name vals) (dm.add_question (questionFor r))
        df' dm' name h (fun r' hr' => hname r' (List.mem_cons_of_mem r hr'))
      rw [this]
      exact add_get_other dm (questionFor r) name
        (fun heq => hname r (List.mem_cons_self r rs)
          (by rw [questionFor_name] at heq; exact heq.symm))

theorem calcAllAux_cons_ok (r : Recode) (rs : List Recode) (df : DataFrame)
    (dm : DataMap) (vals : List Cell) (h : r.calculate df dm = .ok vals) :
    calcAllAux (r :: rs) df dm =
      calcAllAux rs (df.setCol r.name vals) (dm.add_question (questionFor r)) := by
  simp only [calcAllAux]
  rw [h]

theorem calcAllAux_cons_err (r : Recode) (rs : List Recode) (df : DataFrame)
    (dm : DataMap) (e : String) (h : r.calculate df dm = .error e) :
    calcAllAux (r :: rs) df dm =
      (.error ("Error calculating recode '" ++ r.name ++ "': " ++ e), dm) := by
  simp only [calcAllAux]
  rw [h]

/-- `calculate_all` over a concatenation runs the first part and, if it
succeeded, continues with the second on the extended state; an error in the
first part short-circuits. -/
theorem calcAllAux_append :
    ∀ (l₁ l₂ : List Recode) (df : DataFrame) (dm : DataMap),
    calcAllAux (l₁ ++ l₂) df dm =
      (match calcAllAux l₁ df dm with
       | (.ok df₁, dm₁) => calcAllAux l₂ df₁ dm₁
       | (.error e, dm₁) => (.error e, dm₁)) := by
  intro l₁
  induction l₁ with
  | nil => intro l₂ df dm; rfl
  | cons r l₁ ih =>
    intro l₂ df dm
    cases hc : r.calculate df dm with
    | error e =>
      rw [show (r :: l₁) ++ l₂ = r :: (l₁ ++ l₂) from rfl,
        calcAllAux_cons_err r (l₁ ++ l₂) df dm e hc,
        calcAllAux_cons_err r l₁ df dm e hc]
    | ok vals =>
      rw [show (r :: l₁) ++ l₂ = r :: (l₁ ++ l₂) from rfl,
        calcAllAux_cons_ok r (l₁ ++ l₂) df dm vals hc,
        calcAllAux_cons_ok r l₁ df dm vals hc]
      exact ih l₂ _ _

/-- On success the returned datamap is the input extended by one Question per
recode, in order. -/
theorem calcAll_ok_dm :
    ∀ (rs : List Recode) (df : DataFrame) (dm : DataMap) (df' : DataFrame)
    (dm' : DataMap), calcAllAux rs df dm = (.ok df', dm') →
    dm' = rs.foldl (fun m r => m.add_question (questionFor r)) dm := by
  intro rs
  induction rs with
  | nil => intro df dm df' dm' h; cases h; rfl
  | cons r rs ih =>
    intro df dm df' dm' h
    unfold calcAllAux at h
    cases hc : r.calculate df dm with
    | error e => rw [hc] at h; cases h
    | ok vals =>
      rw [hc] at h
      rw [List.foldl_cons]
      exact ih _ _ _ _ h

/-- C5, corrected.  When the recodes before index `k` succeed and the `k`-th
recode's calculation raises, the whole `calculate_all` call aborts with the
failing recode's name attached to the error, and the Questions added for
recodes `0..k-1` remain in the returned schema (no schema rollback) — but no
dataset is returned: the loop mutates a local copy (`result_df = df.copy()`)
that is lost when the exception propagates, so the partial result columns do
NOT survive anywhere; the caller's dataset is untouched. -/
theorem c5_amended (rs : List Recode) (df : DataFrame) (dm : DataMap) (k : Nat)
    (hk : k < rs.length) (dfk : DataFrame) (dmk : DataMap) (e : String)
    (hpre : calcAllAux (rs.take k) df dm = (.ok dfk, dmk))
    (hfail : (rs.get ⟨k, hk⟩).calculate dfk dmk = .error e) :
    calcAllAux rs df dm =
      (.error ("Error calculating recode '" ++ (rs.get ⟨k, hk⟩).name ++ "': " ++ e),
        dmk)
    ∧ dmk = (rs.take k).foldl (fun m r => m.add_question (questionFor r)) dm := by
  constructor
  · have hsplit : rs = rs.take k ++ rs.drop k := (List.take_append_drop k rs).symm
    have hdrop : rs.drop k = rs.get ⟨k, hk⟩ :: rs.drop (k + 1) := by
      rw [List.drop_eq_getElem_cons hk]
      rfl
    conv_lhs => rw [hsplit]
    rw [calcAllAux_append, hpre, hdrop]
    unfold calcAllAux
    rw [hfail]
  · exact calcAll_ok_dm (rs.take k) df dm dfk dmk hpre

/-- C5 counterexample: with a succeeding first recode and a failing second
one, `calculate_all` returns the wrapped error and a schema containing the
first recode's Question, while no dataset carries the first recode's column:
the error result holds no dataframe and the input dataset is unchanged (the
loop worked on a discarded copy). -/
theorem c5_counterexample :
    (RecodeEngine.calculate_all egEngine egDF egDM).1
      = .error "Error calculating recode 'Bad': name 're' is not defined"
    ∧ (RecodeEngine.calculate_all egEngine egDF egDM).2.get_question "Cnt"
      = some ⟨"Cnt", QuestionType.NUMERIC, "count", []⟩
    ∧ egDF.hasCol "Cnt" = false := by
  refine ⟨by decide, by decide, by decide⟩

/-- C5 witness: the amended theorem applied to the concrete two-recode
engine failing at index 1. -/
theorem c5_witness :
    (calcAllAux (egEngine.recodes.take 1) egDF egDM
        = (.ok (egDF.setCol "Cnt" [Cell.num 1, Cell.num 0]),
           egDM.add_question ⟨"Cnt", QuestionType.NUMERIC, "count", []⟩)
      ∧ (egEngine.recodes.get ⟨1, by decide⟩).calculate
          (egDF.setCol "Cnt" [Cell.num 1, Cell.num 0])
          (egDM.add_question ⟨"Cnt", QuestionType.NUMERIC, "count", []⟩)
        = .error "name 're' is not defined")
    ∧ calcAllAux egEngine.recodes egDF egDM
      = (.error "Error calculating recode 'Bad': name 're' is not defined",
         egDM.add_question ⟨"Cnt", QuestionType.NUMERIC, "count", []⟩)
    ∧ egDM.add_question ⟨"Cnt", QuestionType.NUMERIC, "count", []⟩
      = (egEngine.recodes.take 1).foldl
          (fun m r => m.add_question (questionFor r)) egDM := by
  refine ⟨⟨by decide, by decide⟩, ?_⟩
  have h := c5_amended egEngine.recodes egDF egDM 1 (by decide)
    (egDF.setCol "Cnt" [Cell.num 1, Cell.num 0])
    (egDM.add_question ⟨"Cnt", QuestionType.NUMERIC, "count", []⟩)
    "name 're' is not defined" (by decide) (by decide)
  exact ⟨by rw [h.1]; decide, h.2⟩

/-- C6, amended: when the recode names are pairwise distinct and none clashes
with an existing column, a successful `calculate_all` over `n` columns and
`r` recodes returns `n + r` columns, and the returned schema maps every
recode's name to the Question inferred from its variant (SingleChoice for
QualiUnique, MultiChoice for QualiMultiple/INI, Numeric for the rest,
Combination included). -/
theorem c6_amended :
    ∀ (rs : List Recode) (df : DataFrame) (dm : DataMap) (df' : DataFrame)
    (dm' : DataMap), calcAllAux rs df dm = (.ok df', dm') →
    (rs.map Recode.name).Nodup →
    (∀ r ∈ rs, df.hasCol r.name = false) →
    df'.cols.length = df.cols.length + rs.length
    ∧ ∀ r ∈ rs, dm'.get_question r.name = some (questionFor r) := by
  intro rs
  induction rs with
  | nil =>
    intro df dm df' dm' h _ _
    cases h
    exact ⟨rfl, by simp⟩
  | cons r rs ih =>
    intro df dm df' dm' h hnodup hfresh
    unfold calcAllAux at h
    cases hc : r.calculate df dm with
    | error e => rw [hc] at h; cases h
    | ok vals =>
      rw [hc] at h
      rw [List.map_cons] at hnodup
      obtain ⟨hnotmem, hnodup'⟩ := List.nodup_cons.mp hnodup
      have hne : ∀ r' ∈ rs, r'.name ≠ r.name := by
        intro r' hr' heq
        exact hnotmem (heq ▸ List.mem_map_of_mem Recode.name hr')
      have hfresh' : ∀ r' ∈ rs, (df.setCol r.name vals).hasCol r'.name = false := by
        intro r' hr'
        rw [setCol_hasCol_fresh df r.name r'.name vals
          (hfresh r (List.mem_cons_self r rs))]
        rw [hfresh r' (List.mem_cons_of_mem r hr')]
        simp [beq_eq_false_iff_ne]
        exact fun heq => hne r' hr' heq.symm
      obtain ⟨hlen, hget⟩ := ih (df.setCol r.name vals)
        (dm.add_question (questionFor r)) df' dm' h hnodup' hfresh'
      constructor
      · rw [hlen, setCol_length_fresh df r.name vals
          (hfresh r (List.mem_cons_self r rs))]
        simp [Nat.add_comm, Nat.add_assoc, Nat.add_left_comm]
      · intro r' hr'
        rcases List.mem_cons.mp hr' with rfl | hr'
        · have := calcAll_ok_get_untouched rs (df.setCol r'.name vals)
            (dm.add_question (questionFor r')) df' dm' r'.name h
            (fun x hx => hne x hx)
          rw [this]
          rw [show r'.name = (questionFor r').name from (questionFor_name r').symm]
          exact add_get_same dm (questionFor r')
        · exact hget r' hr'

/-- C6 counterexample: a recode named like an existing column (`A`) replaces
that column (`result_df[name] = values`), so a successful `calculate_all`
over a 2-column dataset and 1 recode returns 2 columns, not 2 + 1 = 3 as the
unconditional claim states. -/
theorem c6_counterexample :
    (Except.map (fun d => d.cols.length)
      (RecodeEngine.calculate_all ⟨[.qualiUnique "A" "t" "" []]⟩ egDF egDM).1)
      = .ok 2
    ∧ egDF.cols.length + 1 = 3 := by
  refine ⟨by decide, by decide⟩

/-- C6 witness: the amended theorem applied to two fresh, distinctly named
recodes over the 2-column dataset: 4 columns result, and the schema maps each
recode name to its inferred Question (Numeric for NumberOfAnswers,
SingleChoice with the code table for QualiUnique). -/
theorem c6_witness :
    (calcAllAux [Recode.numberOfAnswers "Cnt" "count" "[\"A\"]",
        Recode.qualiUnique "G" "grp" "1: [\"A\"=1]" [(1, "one")]] egDF egDM
      = (.ok ((egDF.setCol "Cnt" [Cell.num 1, Cell.num 0]).setCol "G"
            [Cell.num 1, Cell.null]),
         (egDM.add_question ⟨"Cnt", QuestionType.NUMERIC, "count", []⟩).add_question
            ⟨"G", QuestionType.QUALI_UNIQUE, "grp", [(1, "one")]⟩)
      ∧ ([Recode.numberOfAnswers "Cnt" "count" "[\"A\"]",
          Recode.qualiUnique "G" "grp" "1: [\"A\"=1]" [(1, "one")]].map
            Recode.name).Nodup
      ∧ egDF.hasCol "Cnt" = false ∧ egDF.hasCol "G" = false)
    ∧ ((egDF.setCol "Cnt" [Cell.num 1, Cell.num 0]).setCol "G"
        [Cell.num 1, Cell.null]).cols.length = egDF.cols.length + 2
    ∧ ((egDM.add_question ⟨"Cnt", QuestionType.NUMERIC, "count", []⟩).add_question
        ⟨"G", QuestionType.QUALI_UNIQUE, "grp", [(1, "one")]⟩).get_question "Cnt"
      = some ⟨"Cnt", QuestionType.NUMERIC, "count", []⟩
    ∧ ((egDM.add_question ⟨"Cnt", QuestionType.NUMERIC, "count", []⟩).add_question
        ⟨"G", QuestionType.QUALI_UNIQUE, "grp", [(1, "one")]⟩).get_question "G"
      = some ⟨"G", QuestionType.QUALI_UNIQUE, "grp", [(1, "one")]⟩ := by
  have h := c6_amended
    [Recode.numberOfAnswers "Cnt" "count" "[\"A\"]",
     Recode.qualiUnique "G" "grp" "1: [\"A\"=1]" [(1, "one")]] egDF egDM
    ((egDF.setCol "Cnt" [Cell.num 1, Cell.num 0]).setCol "G"
      [Cell.num 1, Cell.null])
    ((egDM.add_question ⟨"Cnt", QuestionType.NUMERIC, "count", []⟩).add_question
      ⟨"G", QuestionType.QUALI_UNIQUE, "grp", [(1, "one")]⟩)
    (by decide) (by decide) (by decide)
  refine ⟨⟨by decide, by decide, by decide, by decide⟩, h.1, ?_, ?_⟩
  · exact h.2 (Recode.numberOfAnswers "Cnt" "count" "[\"A\"]") (by simp)
  · exact h.2 (Recode.qualiUnique "G" "grp" "1: [\"A\"=1]" [(1, "one")]) (by simp)

/-! ## Claim C8 -/

theorem mem_zMarkers {sig : ℚ → ℚ → ℚ → ℚ → Bool} {cells : List (List ℚ)}
    {nc r i j : Nat} :
    j ∈ zMarkers sig cells nc r i ↔
    j < nc ∧ j ≠ i ∧ 0 < colTotalAt cells i ∧ 0 < colTotalAt cells j
      ∧ sig (tabCell cells r i) (colTotalAt cells i) (tabCell cells r j)
          (colTotalAt cells j) = true
      ∧ propAt cells r j < propAt cells r i := by
  simp [zMarkers, List.mem_filter, List.mem_range, decide_eq_true_eq, and_assoc]

/-- Every marker entry of `column_z_tests` is either out of range (empty) or
the `zMarkers` letter list of the stripped table. -/
theorem column_z_tests_getD (sig : ℚ → ℚ → ℚ → ℚ → Bool) (ct : CrossTab)
    (a b : Nat) :
    ((column_z_tests sig ct).getD a []).getD b [] = []
    ∨ ((column_z_tests sig ct).getD a []).getD b []
      = zMarkers sig (stripTotals ct).cells
          ((stripTotals ct).colLabels.length) a b := by
  by_cases hnc : (stripTotals ct).colLabels.length < 2
  · left
    rw [column_z_tests, if_pos hnc]
    simp only [List.getD_eq_getElem?_getD, List.getElem?_map]
    cases h : (stripTotals ct).cells[a]? with
    | none => rfl
    | some row => rfl
  · rw [column_z_tests, if_neg hnc]
    simp only [List.getD_eq_getElem?_getD, List.getElem?_map]
    by_cases ha : a < (stripTotals ct).rowLabels.length
    · rw [List.getElem?_range ha]
      simp only [Option.map_some', Option.getD_some, List.getElem?_map]
      by_cases hb : b < (stripTotals ct).colLabels.length
      · right
        rw [List.getElem?_range hb]
        rfl
      · left
        rw [show (List.range (stripTotals ct).colLabels.length)[b]? = none from
          List.getElem?_eq_none (by simpa using Nat.le_of_not_lt hb)]
        rfl
    · left
      rw [show (List.range (stripTotals ct).rowLabels.length)[a]? = none from
        List.getElem?_eq_none (by simpa using Nat.le_of_not_lt ha)]
      rfl

/-- C8, confirmed.  In the marker matrix of the pairwise column z-test
(markers recorded as column indices; the rendered letter for index `j` is
`chr(65 + j)`, injective in `j`), a cell in column `i` never carries its own
letter, and for no row and no pair of columns do cell `(row, i)` carry `j`'s
letter and cell `(row, j)` simultaneously carry `i`'s letter: each marking
requires the marked column's proportion to strictly exceed the other's, and
strict `<` on ℚ is asymmetric.  This holds for every z-test predicate `sig`
(the `se > 0 and p_value < alpha` computation), hence for the source's. -/
theorem c8_confirmed (sig : ℚ → ℚ → ℚ → ℚ → Bool) (ct : CrossTab) (r i j : Nat) :
    i ∉ ((column_z_tests sig ct).getD r []).getD i []
    ∧ ¬(j ∈ ((column_z_tests sig ct).getD r []).getD i []
        ∧ i ∈ ((column_z_tests sig ct).getD r []).getD j []) := by
  constructor
  · rcases column_z_tests_getD sig ct r i with h | h
    · rw [h]; exact List.not_mem_nil i
    · rw [h]
      intro hmem
      exact (mem_zMarkers.mp hmem).2.1 rfl
  · rintro ⟨hji, hij⟩
    rcases column_z_tests_getD sig ct r i with h | h
    · rw [h] at hji; exact List.not_mem_nil j hji
    · rcases column_z_tests_getD sig ct r j with h' | h'
      · rw [h'] at hij; exact List.not_mem_nil i hij
      · rw [h] at hji
        rw [h'] at hij
        have h1 := (mem_zMarkers.mp hji).2.2.2.2.2
        have h2 := (mem_zMarkers.mp hij).2.2.2.2.2
        exact lt_asymm h1 h2

/-! ## Claim C9 -/

theorem sum_filter_split {α : Type} (p : α → Bool) (f : α → ℚ) :
    ∀ (l : List α),
    (l.map f).sum = ((l.filter p).map f).sum
      + ((l.filter (fun o => !(p o))).map f).sum := by
  intro l
  induction l with
  | nil => simp
  | cons o l ih =>
    cases hp : p o with
    | true =>
      simp only [List.map_cons, List.sum_cons, List.filter_cons, hp,
        Bool.not_true, if_true, Bool.false_eq_true, if_false]
      rw [ih]
      ring
    | false =>
      simp only [List.map_cons, List.sum_cons, List.filter_cons, hp,
        Bool.not_false, Bool.false_eq_true, if_false, if_true]
      rw [ih]
      ring

/-- Partition: summing a quantity per key over the nodup list of all
occurring keys totals the whole sum. -/
theorem sum_filter_partition {α : Type} (key : α → String) (f : α → ℚ) :
    ∀ (keys : List String) (obs : List α), keys.Nodup →
    (∀ o ∈ obs, key o ∈ keys) →
    (keys.map (fun k => ((obs.filter (fun o => key o == k)).map f).sum)).sum
      = (obs.map f).sum := by
  intro keys
  induction keys with
  | nil =>
    intro obs _ hmem
    have : obs = [] := by
      cases obs with
      | nil => rfl
      | cons o os => exact absurd (hmem o (List.mem_cons_self o os)) (List.not_mem_nil _)
    subst this
    simp
  | cons k ks ih =>
    intro obs hnd hmem
    obtain ⟨hk, hnd'⟩ := List.nodup_cons.mp hnd
    rw [List.map_cons, List.sum_cons]
    have hks : ∀ k' ∈ ks,
        obs.filter (fun o => key o == k')
          = (obs.filter (fun o => !(key o == k))).filter (fun o => key o == k') := by
      intro k' hk'
      rw [List.filter_filter]
      apply List.filter_congr
      intro o _
      cases ho : (key o == k') with
      | false => simp
      | true =>
        have : key o = k' := (beq_iff_eq ..).mp ho
        have hne : (key o == k) = false := by
          rw [this]
          exact beq_eq_false_iff_ne.mpr (fun he => hk (he ▸ hk'))
        simp [hne]
    have hmap : ks.map (fun k' => ((obs.filter (fun o => key o == k')).map f).sum)
        = ks.map (fun k' =>
          (((obs.filter (fun o => !(key o == k))).filter
            (fun o => key o == k')).map f).sum) := by
      apply List.map_congr_left
      intro k' hk'
      rw [hks k' hk']
    rw [hmap, ih (obs.filter (fun o => !(key o == k))) hnd'
      (fun o ho => by
        have hin := List.mem_filter.mp ho
        have := hmem o hin.1
        rcases List.mem_cons.mp this with he | hmem'
        · rw [he] at hin
          simp at hin
        · exact hmem')]
    exact (sum_filter_split (fun o => key o == k) f obs).symm

theorem sum_map_div_mul {α : Type} (l : List α) (f : α → ℚ) (T c : ℚ) :
    (l.map (fun x => f x / T * c)).sum = (l.map f).sum / T * c := by
  induction l with
  | nil => simp
  | cons x l ih =>
    rw [List.map_cons, List.sum_cons, ih, List.map_cons, List.sum_cons]
    ring

theorem indexOf?_append_sentinel (s : String) :
    ∀ (l : List String), s ∉ l → (l ++ [s]).indexOf? s = some l.length := by
  intro l
  induction l with
  | nil =>
    intro _
    rw [List.nil_append, List.indexOf?_cons, if_pos (beq_self_eq_true s)]
    rfl
  | cons x l ih =>
    intro h
    rw [List.cons_append, List.indexOf?_cons]
    rw [if_neg (by
      intro hx
      exact h ((beq_iff_eq ..).mp hx ▸ List.mem_cons_self x l))]
    rw [ih (fun hm => h (List.mem_cons_of_mem x hm))]
    rfl

theorem bodyRowOf_length (obs : List (String × String × ℚ)) (r : String) :
    (bodyRowOf obs r).length = (colCatsOf obs).length + 1 := by
  simp [bodyRowOf]

theorem marginRowOf_length (obs : List (String × String × ℚ)) :
    (marginRowOf obs).length = (colCatsOf obs).length + 1 := by
  simp [marginRowOf]

/-- The `Total` row of the contingency table is its margin row, provided no
data row category is itself literally named `Total`. -/
theorem totalRowOf_crossTab (obs : List (String × String × ℚ))
    (hrow : "Total" ∉ rowCatsOf obs) :
    totalRowOf (crossTabOf obs) = marginRowOf obs := by
  have h1 : (crossTabOf obs).rowLabels.indexOf? "Total"
      = some (rowCatsOf obs).length :=
    indexOf?_append_sentinel "Total" (rowCatsOf obs) hrow
  rw [totalRowOf, h1]
  show ((rowCatsOf obs).map (bodyRowOf obs) ++ [marginRowOf obs]).getD
    (rowCatsOf obs).length [] = marginRowOf obs
  rw [List.getD_eq_getElem?_getD,
    show (rowCatsOf obs).length = ((rowCatsOf obs).map (bodyRowOf obs)).length
      from (List.length_map ..).symm,
    List.getElem?_concat_length]
  rfl

/-- Body cell lookup: row `i` of the table is the body row of the `i`-th row
category. -/
theorem crossTab_cells_getElem (obs : List (String × String × ℚ)) (i : Nat)
    (hi : i < (rowCatsOf obs).length) :
    (crossTabOf obs).cells[i]?
      = some (bodyRowOf obs ((rowCatsOf obs).getD i "")) := by
  show ((rowCatsOf obs).map (bodyRowOf obs) ++ [marginRowOf obs])[i]? = _
  rw [List.getElem?_append_left (by rw [List.length_map]; exact hi),
    List.getElem?_map, List.getElem?_eq_getElem hi]
  rw [List.getD_eq_getElem (rowCatsOf obs) "" hi]
  rfl

theorem bodyRowOf_getD (obs : List (String × String × ℚ)) (r : String)
    (j : Nat) (hj : j < (colCatsOf obs).length) :
    (bodyRowOf obs r).getD j 0
      = sumW obs (fun o => o.1 == r && o.2.1 == (colCatsOf obs).getD j "") := by
  unfold bodyRowOf
  rw [List.getD_eq_getElem?_getD,
    List.getElem?_append_left (by rw [List.length_map]; exact hj),
    List.getElem?_map, List.getElem?_eq_getElem hj,
    List.getD_eq_getElem (colCatsOf obs) "" hj]
  rfl

theorem bodyRowOf_getD_total (obs : List (String × String × ℚ)) (r : String) :
    (bodyRowOf obs r).getD (colCatsOf obs).length 0
      = sumW obs (fun o => o.1 == r) := by
  unfold bodyRowOf
  rw [List.getD_eq_getElem?_getD,
    show (colCatsOf obs).length
        = ((colCatsOf obs).map (fun c =>
            sumW obs (fun o => o.1 == r && o.2.1 == c))).length
      from (List.length_map ..).symm,
    List.getElem?_concat_length]
  rfl

theorem marginRowOf_getD (obs : List (String × String × ℚ)) (j : Nat)
    (hj : j < (colCatsOf obs).length) :
    (marginRowOf obs).getD j 0
      = sumW obs (fun o => o.2.1 == (colCatsOf obs).getD j "") := by
  unfold marginRowOf
  rw [List.getD_eq_getElem?_getD,
    List.getElem?_append_left (by rw [List.length_map]; exact hj),
    List.getElem?_map, List.getElem?_eq_getElem hj,
    List.getD_eq_getElem (colCatsOf obs) "" hj]
  rfl

/-- Column partition: the per-row-category cell sums of one column add up to
that column's margin. -/
theorem colSum_partition (obs : List (String × String × ℚ)) (c : String) :
    ((rowCatsOf obs).map (fun r =>
      sumW obs (fun o => o.1 == r && o.2.1 == c))).sum
      = sumW obs (fun o => o.2.1 == c) := by
  have hrw : ∀ r : String, sumW obs (fun o => o.1 == r && o.2.1 == c)
      = (((obs.filter (fun o => o.2.1 == c)).filter
          (fun o => o.1 == r)).map (·.2.2)).sum := by
    intro r
    unfold sumW
    rw [List.filter_filter]
  rw [List.map_congr_left (fun r (_ : r ∈ rowCatsOf obs) => hrw r)]
  rw [sum_filter_partition (fun o => o.1) (fun o => o.2.2) (rowCatsOf obs)
    (obs.filter (fun o => o.2.1 == c)) (List.nodup_dedup _)
    (fun o ho => by
      have := (List.mem_filter.mp ho).1
      exact List.mem_dedup.mpr (List.mem_map_of_mem (·.1) this))]
  rfl

/-- Row partition: the per-column-category cell sums of one row add up to
that row's margin. -/
theorem rowSum_partition (obs : List (String × String × ℚ)) (r : String) :
    ((colCatsOf obs).map (fun c =>
      sumW obs (fun o => o.1 == r && o.2.1 == c))).sum
      = sumW obs (fun o => o.1 == r) := by
  have hrw : ∀ c : String, sumW obs (fun o => o.1 == r && o.2.1 == c)
      = (((obs.filter (fun o => o.1 == r)).filter
          (fun o => o.2.1 == c)).map (·.2.2)).sum := by
    intro c
    unfold sumW
    rw [List.filter_filter,
      show List.filter (fun a => a.2.1 == c && a.1 == r) obs
          = List.filter (fun o => o.1 == r && o.2.1 == c) obs from
        List.filter_congr (fun o _ => Bool.and_comm (o.2.1 == c) (o.1 == r))]
  rw [List.map_congr_left (fun c (_ : c ∈ colCatsOf obs) => hrw c)]
  rw [sum_filter_partition (fun o => o.2.1) (fun o => o.2.2) (colCatsOf obs)
    (obs.filter (fun o => o.1 == r)) (List.nodup_dedup _)
    (fun o ho => by
      have := (List.mem_filter.mp ho).1
      exact List.mem_dedup.mpr (List.mem_map_of_mem (·.2.1) this))]
  rfl

/-- C9, confirmed.  For the contingency-with-margins tables `generate_tab`
builds (every `counts` it produces is a margins crosstab over the filtered
observations), every non-Total column with non-zero base sums to exactly 100
in `columnPercent` over the non-Total rows, and every non-Total row with
non-zero base sums to exactly 100 in `rowPercent` over the non-Total columns
(exact rational arithmetic; the claim's "up to rounding" weakening is not
needed). -/
theorem c9_confirmed (obs : List (String × String × ℚ))
    (hrow : "Total" ∉ rowCatsOf obs) (hcol : "Total" ∉ colCatsOf obs) :
    (∀ j, j < (colCatsOf obs).length →
      (totalRowOf (crossTabOf obs)).getD j 0 ≠ 0 →
      (((colPctTab (crossTabOf obs)).take (rowCatsOf obs).length).map
        (fun row => row.getD j 0)).sum = 100)
    ∧ (∀ i, i < (rowCatsOf obs).length →
      ((crossTabOf obs).cells.getD i []).getD (colCatsOf obs).length 0 ≠ 0 →
      (((rowPctTab (crossTabOf obs)).getD i []).take (colCatsOf obs).length).sum
        = 100) := by
  constructor
  · intro j hj hT
    have htr := totalRowOf_crossTab obs hrow
    have hTval : (totalRowOf (crossTabOf obs)).getD j 0
        = sumW obs (fun o => o.2.1 == (colCatsOf obs).getD j "") := by
      rw [htr, marginRowOf_getD obs j hj]
    rw [hTval] at hT
    unfold colPctTab
    rw [show (crossTabOf obs).cells
        = (rowCatsOf obs).map (bodyRowOf obs) ++ [marginRowOf obs] from rfl]
    rw [List.map_append, List.take_left' (by rw [List.length_map, List.length_map])]
    rw [List.map_map, List.map_map]
    simp only [Function.comp_def]
    have hpt : ∀ r ∈ rowCatsOf obs,
        (List.zipWith (fun x t => x / t * 100) (bodyRowOf obs r)
          (totalRowOf (crossTabOf obs))).getD j 0
          = sumW obs (fun o => o.1 == r && o.2.1 == (colCatsOf obs).getD j "")
            / sumW obs (fun o => o.2.1 == (colCatsOf obs).getD j "") * 100 := by
      intro r _
      rw [zipWith_getD (fun x t => x / t * 100) 0 0 0 _ _ j
        (by rw [bodyRowOf_length]; omega)
        (by rw [htr, marginRowOf_length]; omega)]
      rw [bodyRowOf_getD obs r j hj, hTval]
    rw [List.map_congr_left hpt]
    rw [sum_map_div_mul (rowCatsOf obs)
      (fun r => sumW obs (fun o => o.1 == r && o.2.1 == (colCatsOf obs).getD j ""))
      (sumW obs (fun o => o.2.1 == (colCatsOf obs).getD j "")) 100]
    rw [colSum_partition obs ((colCatsOf obs).getD j "")]
    rw [div_self hT, one_mul]
  · intro i hi hT
    have hcell := crossTab_cells_getElem obs i hi
    have hrowi : (crossTabOf obs).cells.getD i []
        = bodyRowOf obs ((rowCatsOf obs).getD i "") := by
      rw [List.getD_eq_getElem?_getD, hcell]
      rfl
    have hTr : ((crossTabOf obs).cells.getD i []).getD (colCatsOf obs).length 0
        = sumW obs (fun o => o.1 == ((rowCatsOf obs).getD i "")) := by
      rw [hrowi]
      exact bodyRowOf_getD_total obs ((rowCatsOf obs).getD i "")
    rw [hTr] at hT
    have hidx : (crossTabOf obs).colLabels.indexOf? "Total"
        = some (colCatsOf obs).length :=
      indexOf?_append_sentinel "Total" (colCatsOf obs) hcol
    rw [rowPctTab, hidx]
    rw [List.getD_eq_getElem?_getD, List.getElem?_map, hcell]
    show ((((bodyRowOf obs ((rowCatsOf obs).getD i "")).map
      (fun x => x / (bodyRowOf obs ((rowCatsOf obs).getD i "")).getD
        (colCatsOf obs).length 0 * 100))).take (colCatsOf obs).length).sum = 100
    rw [bodyRowOf_getD_total obs ((rowCatsOf obs).getD i "")]
    rw [show bodyRowOf obs ((rowCatsOf obs).getD i "")
        = (colCatsOf obs).map (fun c => sumW obs
            (fun o => o.1 == ((rowCatsOf obs).getD i "") && o.2.1 == c))
          ++ [sumW obs (fun o => o.1 == ((rowCatsOf obs).getD i ""))] from rfl]
    rw [List.map_append, List.take_left' (by rw [List.length_map, List.length_map])]
    rw [List.map_map]
    simp only [Function.comp_def]
    rw [sum_map_div_mul (colCatsOf obs)
      (fun c => sumW obs
        (fun o => o.1 == ((rowCatsOf obs).getD i "") && o.2.1 == c))
      (sumW obs (fun o => o.1 == ((rowCatsOf obs).getD i ""))) 100]
    rw [rowSum_partition obs ((rowCatsOf obs).getD i "")]
    rw [div_self hT, one_mul]

def c9obs : List (String × String × ℚ) :=
  [("A", "c1", 1), ("A", "c1", 1), ("A", "c2", 1),
   ("B", "c1", 1), ("B", "c2", 1), ("B", "c2", 1)]

/-- Concrete instance of the C9 tabulation invariant: on a 2x2 weighted
crosstab the first column of column percentages sums to 100 over the two
data rows, and the first row of row percentages sums to 100 over the two
data columns. -/
theorem c9_witness :
    ("Total" ∉ rowCatsOf c9obs) ∧ ("Total" ∉ colCatsOf c9obs) ∧
    ((totalRowOf (crossTabOf c9obs)).getD 0 0 ≠ 0 ∧
      (((colPctTab (crossTabOf c9obs)).take (rowCatsOf c9obs).length).map
        (fun row => row.getD 0 0)).sum = 100) ∧
    (((crossTabOf c9obs).cells.getD 0 []).getD (colCatsOf c9obs).length 0 ≠ 0 ∧
      (((rowPctTab (crossTabOf c9obs)).getD 0 []).take
        (colCatsOf c9obs).length).sum = 100) := by
  have hrow : "Total" ∉ rowCatsOf c9obs := by decide
  have hcol : "Total" ∉ colCatsOf c9obs := by decide
  have hT1 : (totalRowOf (crossTabOf c9obs)).getD 0 0 ≠ 0 := by
    rw [totalRowOf_crossTab c9obs hrow, marginRowOf_getD c9obs 0 (by decide)]
    simp +decide [sumW, c9obs]
    norm_num
  have hrow0 : (crossTabOf c9obs).cells.getD 0 []
      = bodyRowOf c9obs ((rowCatsOf c9obs).getD 0 "") := by
    rw [List.getD_eq_getElem?_getD, crossTab_cells_getElem c9obs 0 (by decide)]
    rfl
  have hT2 : ((crossTabOf c9obs).cells.getD 0 []).getD
      (colCatsOf c9obs).length 0 ≠ 0 := by
    rw [hrow0, bodyRowOf_getD_total]
    simp +decide [sumW, c9obs]
    norm_num
  have h := c9_confirmed c9obs hrow hcol
  exact ⟨hrow, hcol, ⟨hT1, h.1 0 (by decide) hT1⟩, ⟨hT2, h.2 0 (by decide) hT2⟩⟩

end Staats
